import Mathlib

/-!
# grep-xlsx: the directory walk, the per-sheet match cursor and the reporters

A shallow embedding of `cmd/grep-xlsx/main.go`.  The spreadsheet engine
(package goxcel), the file system (`filepath.WalkDir`, `filepath.Abs`,
`filepath.Rel`, `filepath.Base`) and `json.Marshal` are external to the
program; they enter the model as the fields of `Env` and as the records the
engine hands back (`Workbook`, `Worksheet`, `UsedRange`, `XlRange`, `Cell`).
Standard output and the sequence of engine calls are threaded explicitly
through every function as a `World`.
-/

namespace GrepXlsx

/-! ## Go values -/

/-- Go `error` values.  `leaf` is an error made by a collaborator, `wrapped`
is what `fmt.Errorf` builds with the `%w` verb: its own message and the
error it wraps. -/
inductive GoError where
  | leaf (msg : String)
  | wrapped (msg : String) (cause : GoError)
  deriving DecidableEq, Repr

/-- Method `Error()` of a Go error: its message. -/
def GoError.Error : GoError → String
  | .leaf msg => msg
  | .wrapped msg _ => msg

/-- Method `Unwrap()` of a Go error: the wrapped error, when there is one. -/
def GoError.Unwrap : GoError → Option GoError
  | .leaf _ => none
  | .wrapped _ cause => some cause

/-- Function `genErr` (main.go:81): `fmt.Errorf("%s failed: %w", procName, err)`. -/
def genErr (procName : String) (err : GoError) : GoError :=
  .wrapped (procName ++ " failed: " ++ err.Error) err

/-- The dynamically typed value (`any`) that reading a cell yields. -/
inductive Variant where
  | str (s : String)
  | float64 (bits : Nat)
  | boolean (b : Bool)
  | null
  | errorCode (code : Int)
  deriving DecidableEq, Repr

/-- A `*goxcel.Cell`, by what its accessors return.  Each accessor returns a
Go pair (value, error); the program reads the value and drops the error. -/
structure Cell where
  Column : Int × Option GoError
  Row : Int × Option GoError
  deriving DecidableEq, Repr

/-- A `*goxcel.XlRange` returned by `Find`/`FindNext`, by what its accessors
return.  `Cells11` is the result of `Cells(1, 1)`. -/
structure XlRange where
  Column : Int × Option GoError
  Row : Int × Option GoError
  Val : Variant × Option GoError
  Cells11 : Cell × Option GoError
  deriving DecidableEq, Repr

/-- The used range of a worksheet (`rng` in `run`): `Cells(1, 1)`, `Find`
and `FindNext`.  Go's `(range, found, err)` triple is `Except` over
`Option`: an error, not found, or the found range. -/
structure UsedRange where
  Cells11 : Except GoError Cell
  Find : String → Cell → Except GoError (Option XlRange)
  FindNext : Cell → Except GoError (Option XlRange)

/-- A `*goxcel.Worksheet`: `Name()` as a Go pair, `UsedRange()`. -/
structure Worksheet where
  Name : String × Option GoError
  UsedRange : Except GoError UsedRange

/-- A `*goxcel.Workbook`: `WorkSheets()` yields the sheets that
`sheets.Walk` hands to its callback, in index order. -/
structure Workbook where
  WorkSheets : Except GoError (List Worksheet)

/-- One invocation of the `filepath.WalkDir` callback: `entry` is
`fn(path, d, nil)` with `d.IsDir()` given, `failed` is `fn(path, d, err)` with
a non-nil `err`. -/
inductive Visit where
  | entry (path : String) (isDir : Bool)
  | failed (path : String) (err : GoError)
  deriving DecidableEq, Repr

/-- The command line (`Args`, main.go:19). -/
structure Args where
  dir : String
  text : String
  json : Bool
  onlyHit : Bool
  verbose : Bool
  debug : Bool
  deriving DecidableEq, Repr

/-- Type `SimpleResult` (main.go:28). -/
structure SimpleResult where
  Path : String
  Sheet : String
  Text : String
  deriving DecidableEq, Repr

/-- Type `DetailResult` (main.go:34); `Row` and `Col` are `int32`. -/
structure DetailResult where
  Path : String
  Sheet : String
  Row : Int
  Col : Int
  Text : String
  deriving DecidableEq, Repr

/-- The collaborators of the program that are not part of it. -/
structure Env where
  /-- width of Go's `int` in bits (64 on amd64) -/
  intBits : Nat
  /-- `strconv.IsPrint` on runes above U+00FF (a table of the Go library) -/
  isPrintWide : Char → Bool
  /-- `json.Marshal` on a `*SimpleResult` -/
  marshalSimple : SimpleResult → Except GoError String
  /-- `json.Marshal` on a `*DetailResult` -/
  marshalDetail : DetailResult → Except GoError String
  /-- `filepath.Abs` -/
  Abs : String → Except GoError String
  /-- `filepath.Rel` as a Go pair -/
  Rel : String → String → String × Option GoError
  /-- `filepath.Base` -/
  Base : String → String
  /-- the callback invocations `filepath.WalkDir` makes on a root, as long as
  the callback keeps returning nil -/
  WalkDir : String → List Visit
  /-- `wbs.Open` -/
  Open : String → Except GoError Workbook

/-! ## Observable behaviour -/

/-- One write to standard output, tagged by the statement that made it. -/
inductive Emitted where
  | summary (line : String)
  | detail (line : String)
  | trace (line : String)
  deriving DecidableEq, Repr

/-- One engine call whose error the program checks, with the error it
returned (if any). -/
inductive Call where
  | wbsOpen (absPath : String) (err : Option GoError)
  | workSheets (err : Option GoError)
  | usedRange (err : Option GoError)
  | cells (err : Option GoError)
  | find (text : String) (startCell : Cell) (err : Option GoError)
  | findNext (after : Cell) (err : Option GoError)
  deriving DecidableEq, Repr

/-- What has been written and which engine calls were made, oldest first. -/
structure World where
  stdout : List Emitted
  calls : List Call
  deriving DecidableEq, Repr

/-- Nothing written, nothing called. -/
def World.init : World := ⟨[], []⟩

/-- Append one write. -/
def World.emit (w : World) (e : Emitted) : World :=
  { w with stdout := w.stdout ++ [e] }

/-- Append one engine call. -/
def World.call (w : World) (c : Call) : World :=
  { w with calls := w.calls ++ [c] }

/-- How a function ends: it returns nil, returns an error, panics, or the
model ran out of loop fuel before it ended. -/
inductive Exit where
  | nil
  | err (e : GoError)
  | panic
  | outOfFuel
  deriving DecidableEq, Repr

/-- The error of a Go result, if any. -/
def errOf {α : Type} : Except GoError α → Option GoError
  | .error e => some e
  | .ok _ => none

/-! ## Formatting -/

/-- Digit `n` of `strconv`'s `lowerhex` table. -/
def lowerhex (n : Nat) : Char :=
  ['0', '1', '2', '3', '4', '5', '6', '7', '8', '9', 'a', 'b', 'c', 'd', 'e', 'f'].getD n '0'

/-- The `k` lowest hexadecimal digits of `n`, most significant first. -/
def hexDigits : Nat → Nat → List Char
  | 0, _ => []
  | k + 1, n => hexDigits k (n / 16) ++ [lowerhex (n % 16)]

/-- Function `strconv.IsPrint`: the Latin-1 fast path, the library table above it. -/
def IsPrint (env : Env) (r : Char) : Bool :=
  if r.toNat ≤ 0xFF then
    if 0x20 ≤ r.toNat ∧ r.toNat ≤ 0x7E then true
    else if 0xA1 ≤ r.toNat ∧ r.toNat ≤ 0xFF then r.toNat != 0xAD
    else false
  else env.isPrintWide r

/-- Function `appendEscapedRune` of `strconv` for the double quote, neither
ASCII-only nor graphic-only: what `%q` writes for one rune. -/
def escapeRune (env : Env) (r : Char) : List Char :=
  if r = Char.ofNat 34 ∨ r = Char.ofNat 92 then [Char.ofNat 92, r]
  else if IsPrint env r then [r]
  else if r.toNat = 7 then [Char.ofNat 92, 'a']
  else if r.toNat = 8 then [Char.ofNat 92, 'b']
  else if r.toNat = 12 then [Char.ofNat 92, 'f']
  else if r.toNat = 10 then [Char.ofNat 92, 'n']
  else if r.toNat = 13 then [Char.ofNat 92, 'r']
  else if r.toNat = 9 then [Char.ofNat 92, 't']
  else if r.toNat = 11 then [Char.ofNat 92, 'v']
  else if r.toNat < 0x20 ∨ r.toNat = 0x7F then Char.ofNat 92 :: 'x' :: hexDigits 2 r.toNat
  else if r.toNat < 0x10000 then Char.ofNat 92 :: 'u' :: hexDigits 4 r.toNat
  else Char.ofNat 92 :: 'U' :: hexDigits 8 r.toNat

/-- Function `strconv.Quote`, the verb `%q` of `fmt` on a string: the
escaped runes between two double quotes.  Strings are sequences of Unicode
scalar values here, so the branch for invalid UTF-8 has no counterpart. -/
def quote (env : Env) (s : String) : String :=
  String.mk (Char.ofNat 34 :: (s.data.flatMap (escapeRune env) ++ [Char.ofNat 34]))

/-- The verb `%d` of `fmt` on an integer. -/
def fmtInt (n : Int) : String := toString n

/-- What `log.Logger.Output` writes for a message with empty header: the
message, and a newline unless it already ends in one. -/
def logOutput (s : String) : String :=
  if s.data.getLast? = some (Char.ofNat 10) then s else s ++ "\n"

/-- Method `appLog.Println(message)`: `fmt.Sprintln` ends the message with a
newline, so `Output` adds none. -/
def println (message : String) : String := message ++ "\n"

/-- Function `strings.HasSuffix`. -/
def hasSuffix (s suffix : String) : Bool := suffix.data.isSuffixOf s.data

/-- Does `pat` occur in `s` as a contiguous block? -/
def containsChars (pat : List Char) : List Char → Bool
  | [] => pat.isEmpty
  | c :: cs => pat.isPrefixOf (c :: cs) || containsChars pat cs

/-- Function `strings.Contains`. -/
def contains (s substr : String) : Bool := containsChars substr.data s.data

/-! ## The program -/

/-- Function `newSimpleResult` (main.go:60). -/
def newSimpleResult (path name text : String) : SimpleResult := ⟨path, name, text⟩

/-- Function `newDetailResult` (main.go:64).  The three accessor errors are
dropped; the type assertion `value.(string)` panics (`none`) unless the value
is a string. -/
def newDetailResult (path name : String) (foundRange : XlRange) : Option DetailResult :=
  let col := foundRange.Column.1
  let row := foundRange.Row.1
  let value := foundRange.Val.1
  match value with
  | .str s => some ⟨path, name, row, col, s⟩
  | _ => none

/-- Function `toJson` (main.go:291), over the marshaller for the value's type. -/
def toJson {α : Type} (marshal : α → Except GoError String) (v : α) : Except GoError String :=
  match marshal v with
  | .error err => .error (genErr "json.Marshal(result)" err)
  | .ok b => .ok b

/-- Function `sameCell` (main.go:237). -/
def sameCell (c1 c2 : Cell) : Bool :=
  let col1 := c1.Column.1
  let row1 := c1.Row.1
  let col2 := c2.Column.1
  let row2 := c2.Row.1
  col1 == col2 && row1 == row2

/-- Function `printCellPos` (main.go:246). -/
def printCellPos (startCell after : Cell) (w : World) : World :=
  let col1 := startCell.Column.1
  let row1 := startCell.Row.1
  let col2 := after.Column.1
  let row2 := after.Row.1
  w.emit (.trace (logOutput ("FindNext: startCell=(" ++ fmtInt row1 ++ "," ++ fmtInt col1
    ++ ")\tafter=(" ++ fmtInt row2 ++ "," ++ fmtInt col2 ++ ")")))

/-- The call `fmt.Sprintf("%s %q: %s", result.Path, result.Sheet, result.Text)`
of `outSimple`. -/
def sprintfSimple (env : Env) (result : SimpleResult) : String :=
  result.Path ++ " " ++ quote env result.Sheet ++ ": " ++ result.Text

/-- The call `fmt.Sprintf("%s %q (%d,%d): %q", ...)` of `outDetail`. -/
def sprintfDetail (env : Env) (result : DetailResult) : String :=
  result.Path ++ " " ++ quote env result.Sheet ++ " (" ++ fmtInt result.Row
    ++ "," ++ fmtInt result.Col ++ "): " ++ quote env result.Text

/-- Function `outSimple` (main.go:255). -/
def outSimple (env : Env) (args : Args) (result : SimpleResult) (w : World) :
    Option GoError × World :=
  let message := sprintfSimple env result
  if args.json then
    match toJson env.marshalSimple result with
    | .error err => (some (genErr "toJson(result)" err), w)
    | .ok message => (none, w.emit (.summary (println message)))
  else (none, w.emit (.summary (println message)))

/-- Function `outDetail` (main.go:273). -/
def outDetail (env : Env) (args : Args) (result : DetailResult) (w : World) :
    Option GoError × World :=
  let message := sprintfDetail env result
  if args.json then
    match toJson env.marshalDetail result with
    | .error err => (some (genErr "toJson(result)" err), w)
    | .ok message => (none, w.emit (.detail (println message)))
  else (none, w.emit (.detail (println message)))

/-- Go's `i++` on an `int` of `env.intBits` bits: two's complement wrap-around. -/
def incrInt (env : Env) (i : Int) : Int :=
  (i + 1 + 2 ^ (env.intBits - 1)) % 2 ^ env.intBits - 2 ^ (env.intBits - 1)

/-- The loop `for i := 0; found; i++` of `run` (main.go:192-218), entered at
its head with `found` true, which it is at every head: the body leaves the
loop as soon as `FindNext` reports not found.  One unit of fuel per
iteration. -/
def findNextLoop (env : Env) (args : Args) (relPath name : String) (rng : UsedRange)
    (startCell : Cell) : Nat → Int → XlRange → World → Exit × World
  | 0, _, _, w => (.outOfFuel, w)
  | fuel + 1, i, foundRange, w =>
    let after := foundRange.Cells11.1
    let r := rng.FindNext after
    let w := w.call (.findNext after (errOf r))
    match r with
    | .error err => (.err (genErr "rng.FindNext(after)" err), w)
    | .ok none => (.nil, w)
    | .ok (some foundRange) =>
      let w := if args.debug then printCellPos startCell after w else w
      if decide (i > 0) && sameCell startCell after then (.nil, w)
      else if args.verbose then
        match newDetailResult relPath name foundRange with
        | none => (.panic, w)
        | some result =>
          match outDetail env args result w with
          | (some err, w) => (.err err, w)
          | (none, w) =>
            findNextLoop env args relPath name rng startCell fuel (incrInt env i) foundRange w
      else findNextLoop env args relPath name rng startCell fuel (incrInt env i) foundRange w

/-- The callback of `sheets.Walk` in `run` (main.go:149-221): the scan of
one worksheet. -/
def scanSheet (env : Env) (args : Args) (relPath : String) (fuel : Nat) (ws : Worksheet)
    (w : World) : Exit × World :=
  let r := ws.UsedRange
  let w := w.call (.usedRange (errOf r))
  match r with
  | .error err => (.err (genErr "ws.UsedRange()" err), w)
  | .ok rng =>
    let r := rng.Cells11
    let w := w.call (.cells (errOf r))
    match r with
    | .error err => (.err (genErr "rng.Cells(1, 1)" err), w)
    | .ok startCell =>
      let r := rng.Find args.text startCell
      let w := w.call (.find args.text startCell (errOf r))
      match r with
      | .error err => (.err (genErr "rng.Find(args.text, startCell)" err), w)
      | .ok found =>
        let name := ws.Name.1
        match found with
        | none =>
          if !args.onlyHit then
            match outSimple env args (newSimpleResult relPath name "NO HIT") w with
            | (some err, w) => (.err err, w)
            | (none, w) => (.nil, w)
          else (.nil, w)
        | some foundRange =>
          if !args.verbose then
            match outSimple env args (newSimpleResult relPath name "HIT") w with
            | (some err, w) => (.err err, w)
            | (none, w) => (.nil, w)
          else
            match newDetailResult relPath name foundRange with
            | none => (.panic, w)
            | some result =>
              match outDetail env args result w with
              | (some err, w) => (.err err, w)
              | (none, w) =>
                let startCell := foundRange.Cells11.1
                findNextLoop env args relPath name rng startCell fuel 0 foundRange w

/-- Method `sheets.Walk` with the callback of `run`: the sheets in order, up
to the first one whose scan does not return nil. -/
def walkSheets (env : Env) (args : Args) (relPath : String) (fuel : Nat) :
    List Worksheet → World → Exit × World
  | [], w => (.nil, w)
  | ws :: rest, w =>
    match scanSheet env args relPath fuel ws w with
    | (.nil, w) => walkSheets env args relPath fuel rest w
    | r => r

/-- The callback of `filepath.WalkDir` in `run` (main.go:115-228).  Function
`abs` (main.go:72) panics when `filepath.Abs` fails. -/
def walkFn (env : Env) (args : Args) (rootDir : String) (fuel : Nat) :
    Visit → World → Exit × World
  | .failed _ err, w => (.err err, w)
  | .entry path isDir, w =>
    if isDir then (.nil, w)
    else if contains (env.Base path) "~$" then (.nil, w)
    else if !hasSuffix path ".xlsx" then (.nil, w)
    else
      match env.Abs path with
      | .error _ => (.panic, w)
      | .ok absPath =>
        let r := env.Open absPath
        let w := w.call (.wbsOpen absPath (errOf r))
        match r with
        | .error err => (.err (genErr "wbs.Open(absPath)" err), w)
        | .ok wb =>
          let w := if args.debug then w.emit (.trace (logOutput ("Document Open: " ++ absPath)))
            else w
          let r := wb.WorkSheets
          let w := w.call (.workSheets (errOf r))
          match r with
          | .error err => (.err (genErr "wb.WorkSheets()" err), w)
          | .ok sheets =>
            let relPath := (env.Rel rootDir absPath).1
            walkSheets env args relPath fuel sheets w

/-- Function `filepath.WalkDir` with the callback of `run`: the visits in
order, up to the first one on which the callback does not return nil. -/
def walkDir (env : Env) (args : Args) (rootDir : String) (fuel : Nat) :
    List Visit → World → Exit × World
  | [], w => (.nil, w)
  | v :: rest, w =>
    match walkFn env args rootDir fuel v w with
    | (.nil, w) => walkDir env args rootDir fuel rest w
    | r => r

/-- Function `run` (main.go:103), from the point where the engine session
is up: resolve the root, walk it, return the walk's error. -/
def run (env : Env) (args : Args) (fuel : Nat) : Exit × World :=
  match env.Abs args.dir with
  | .error _ => (.panic, World.init)
  | .ok rootDir => walkDir env args rootDir fuel (env.WalkDir rootDir) World.init

/-! ## Reading a run -/

/-- The detail lines among the writes, in order. -/
def details (out : List Emitted) : List String :=
  out.filterMap fun e => match e with
    | .detail line => some line
    | _ => none

/-- The summary lines among the writes, in order. -/
def summaries (out : List Emitted) : List String :=
  out.filterMap fun e => match e with
    | .summary line => some line
    | _ => none

/-- The cells `FindNext` was called on, in order. -/
def findNextCalls (cs : List Call) : List Cell :=
  cs.filterMap fun c => match c with
    | .findNext after _ => some after
    | _ => none

/-- The text of a cell value that is a string. -/
def textOf : Variant → String
  | .str s => s
  | _ => ""

/-- The detail record of a match: path, sheet, and the row, column and
text of the matched range. -/
def matchRecord (path name : String) (m : XlRange) : DetailResult :=
  ⟨path, name, m.Row.1, m.Column.1, textOf m.Val.1⟩

/-- The line `outDetail` writes for a record when marshalling yields `enc`. -/
def detailLine (env : Env) (args : Args) (enc : DetailResult → String)
    (result : DetailResult) : String :=
  println (if args.json then enc result else sprintfDetail env result)

/-- The line `outSimple` writes for a record when marshalling yields `enc`. -/
def simpleLine (env : Env) (args : Args) (enc : SimpleResult → String)
    (result : SimpleResult) : String :=
  println (if args.json then enc result else sprintfSimple env result)

/-- The world after a successful `FindNext(after)` and the debug line that
follows it. -/
def afterFound (args : Args) (startCell after : Cell) (w : World) : World :=
  if args.debug then printCellPos startCell after (w.call (.findNext after none))
  else w.call (.findNext after none)

/-- The world after the three calls that open a sheet scan, all successful. -/
def afterFind (args : Args) (anchor : Cell) (w : World) : World :=
  ((w.call (.usedRange none)).call (.cells none)).call (.find args.text anchor none)

/-- Whether `wbs.Open(absPath)` is among the engine calls made from `w` to `w'`. -/
def opened (absPath : String) (w w' : World) : Bool :=
  (w'.calls.drop w.calls.length).any fun c => match c with
    | .wbsOpen p _ => p == absPath
    | _ => false

/-- The operation a failed call is reported under, and its error. -/
def Call.failure : Call → Option (String × GoError)
  | .wbsOpen _ (some e) => some ("wbs.Open(absPath)", e)
  | .workSheets (some e) => some ("wb.WorkSheets()", e)
  | .usedRange (some e) => some ("ws.UsedRange()", e)
  | .cells (some e) => some ("rng.Cells(1, 1)", e)
  | .find _ _ (some e) => some ("rng.Find(args.text, startCell)", e)
  | .findNext _ (some e) => some ("rng.FindNext(after)", e)
  | _ => none

/-- Fail-fast reading of a stretch of engine calls that ended in `exit`:
either no call failed, or only the last one did and `exit` is its error
wrapped by `genErr` under the operation's name. -/
def FailFast (exit : Exit) (new : List Call) : Prop :=
  (∀ c ∈ new, c.failure = none) ∨
  ∃ init c op e, new = init ++ [c] ∧ (∀ c' ∈ init, c'.failure = none) ∧
    c.failure = some (op, e) ∧ exit = .err (genErr op e)

/-- A run from `w` to `r` only appended engine calls, fail-fast. -/
def Traced (w : World) (r : Exit × World) : Prop :=
  ∃ new, r.2.calls = w.calls ++ new ∧ FailFast r.1 new

/-- A step from `w` to `w'` only appended engine calls, none of which failed. -/
def CleanStep (w w' : World) : Prop :=
  ∃ new, w'.calls = w.calls ++ new ∧ ∀ c ∈ new, c.failure = none

/-- The same found range, with `err` as the error that `Cells(1, 1)` returns
next to its cell. -/
def XlRange.withCellsErr (r : XlRange) (err : Option GoError) : XlRange :=
  { r with Cells11 := (r.Cells11.1, err) }

/-- The same used range, where `Cells(1, 1)` on every range that `Find` or
`FindNext` finds returns the error `err` chooses for it. -/
def UsedRange.withCellsErr (rng : UsedRange) (err : XlRange → Option GoError) : UsedRange :=
  { rng with
    Find := fun text startCell =>
      match rng.Find text startCell with
      | .ok (some r) => .ok (some (r.withCellsErr (err r)))
      | other => other
    FindNext := fun after =>
      match rng.FindNext after with
      | .ok (some r) => .ok (some (r.withCellsErr (err r)))
      | other => other }

/-- The same worksheet over `UsedRange.withCellsErr`. -/
def Worksheet.withCellsErr (ws : Worksheet) (err : XlRange → Option GoError) : Worksheet :=
  { ws with
    UsedRange :=
      match ws.UsedRange with
      | .ok rng => .ok (rng.withCellsErr err)
      | other => other }

/-! ## Sample inputs -/

/-- A cell at a grid position, every accessor succeeding. -/
def cellAt (row col : Int) : Cell := ⟨(col, none), (row, none)⟩

/-- A found range of one cell holding text, every accessor succeeding. -/
def textHit (row col : Int) (s : String) : XlRange :=
  ⟨(col, none), (row, none), (.str s, none), (cellAt row col, none)⟩

/-- A found range whose cell holds the number 1.0, not text. -/
def numberHit (row col : Int) : XlRange :=
  ⟨(col, none), (row, none), (.float64 0x3FF0000000000000, none), (cellAt row col, none)⟩

/-- A found text range whose `Cells(1, 1)` returns an error next to its cell. -/
def brokenCellsHit : XlRange :=
  ⟨(3, none), (2, none), (.str "foo", none), (cellAt 2 3, some (.leaf "Cells failed"))⟩

/-- A used range with one match, C2: `FindNext` wraps around to it. -/
def oneHit : UsedRange where
  Cells11 := .ok (cellAt 1 1)
  Find := fun _ _ => .ok (some (textHit 2 3 "foo"))
  FindNext := fun _ => .ok (some (textHit 2 3 "foo"))

/-- A used range with two matches, C2 and A5, cycled by `FindNext`. -/
def twoHits : UsedRange where
  Cells11 := .ok (cellAt 1 1)
  Find := fun _ _ => .ok (some (textHit 2 3 "foo"))
  FindNext := fun after =>
    if sameCell after (cellAt 2 3) then .ok (some (textHit 5 1 "foo bar"))
    else .ok (some (textHit 2 3 "foo"))

/-- A used range with three matches, C2, A5 and B7, cycled by `FindNext`. -/
def threeHits : UsedRange where
  Cells11 := .ok (cellAt 1 1)
  Find := fun _ _ => .ok (some (textHit 2 3 "foo"))
  FindNext := fun after =>
    if sameCell after (cellAt 2 3) then .ok (some (textHit 5 1 "foo bar"))
    else if sameCell after (cellAt 5 1) then .ok (some (textHit 7 2 "food"))
    else .ok (some (textHit 2 3 "foo"))

/-- A used range without a match. -/
def noHit : UsedRange where
  Cells11 := .ok (cellAt 1 1)
  Find := fun _ _ => .ok none
  FindNext := fun _ => .ok none

/-- A used range whose only match is a number cell. -/
def numberOnly : UsedRange where
  Cells11 := .ok (cellAt 1 1)
  Find := fun _ _ => .ok (some (numberHit 4 4))
  FindNext := fun _ => .ok (some (numberHit 4 4))

/-- A used range on which `Find` fails. -/
def failingFind : UsedRange where
  Cells11 := .ok (cellAt 1 1)
  Find := fun _ _ => .error (.leaf "The RPC server is unavailable.")
  FindNext := fun _ => .ok none

/-- A used range whose only match is `hit`; `FindNext` finds nothing more. -/
def soleHit (hit : XlRange) : UsedRange where
  Cells11 := .ok (cellAt 1 1)
  Find := fun _ _ => .ok (some hit)
  FindNext := fun _ => .ok none

/-- A worksheet "Sheet1" over a used range. -/
def sheet1 (rng : UsedRange) : Worksheet := ⟨("Sheet1", none), .ok rng⟩

/-- A stand-in for `json.Marshal` on a summary record. -/
def sampleMarshalSimple (r : SimpleResult) : String :=
  "\x7b\"path\":\"" ++ r.Path ++ "\",\"sheet\":\"" ++ r.Sheet ++ "\",\"text\":\"" ++ r.Text
    ++ "\"\x7d"

/-- A stand-in for `json.Marshal` on a detail record. -/
def sampleMarshalDetail (r : DetailResult) : String :=
  "\x7b\"path\":\"" ++ r.Path ++ "\",\"sheet\":\"" ++ r.Sheet ++ "\",\"row\":" ++ fmtInt r.Row
    ++ ",\"col\":" ++ fmtInt r.Col ++ ",\"text\":\"" ++ r.Text ++ "\"\x7d"

/-- The last element of a backslash-separated path. -/
def sampleBase (p : String) : String :=
  String.mk (p.data.reverse.takeWhile fun c => c != Char.ofNat 92).reverse

/-- A file system holding the directory `C:\books` with the given visits and
workbooks, on a 64-bit machine. -/
def sampleEnv (visits : List Visit) (books : String → Except GoError Workbook) : Env where
  intBits := 64
  isPrintWide := fun _ => true
  marshalSimple := fun r => .ok (sampleMarshalSimple r)
  marshalDetail := fun r => .ok (sampleMarshalDetail r)
  Abs := fun p => .ok p
  Rel := fun root p => (String.mk (p.data.drop (root.length + 1)), none)
  Base := sampleBase
  WalkDir := fun _ => visits
  Open := books

/-- An environment without files. -/
def emptyEnv : Env := sampleEnv [] fun _ => .error (.leaf "file not found")

/-- The walk of `C:\books`: the directory itself, a lock file, a text file and
two workbooks. -/
def booksVisits : List Visit :=
  [.entry "C:\\books" true, .entry "C:\\books\\~$a.xlsx" false,
   .entry "C:\\books\\notes.txt" false, .entry "C:\\books\\a.xlsx" false,
   .entry "C:\\books\\b.xlsx" false]

/-- The directory `C:\books` where `a.xlsx` has the one sheet `Sheet1` over
`rng` and `b.xlsx` has a sheet without a match. -/
def booksEnv (rng : UsedRange) : Env :=
  sampleEnv booksVisits fun p =>
    if p = "C:\\books\\a.xlsx" then .ok ⟨.ok [sheet1 rng]⟩
    else if p = "C:\\books\\b.xlsx" then .ok ⟨.ok [sheet1 noHit]⟩
    else .error (.leaf "file not found")

/-- Arguments `--dir C:\books --text foo --verbose`. -/
def verboseArgs : Args := ⟨"C:\\books", "foo", false, true, true, false⟩

/-- Arguments `--dir C:\books --text foo --only-hit=false`. -/
def summaryArgs : Args := ⟨"C:\\books", "foo", false, false, false, false⟩

/-! ## Lemmas -/

@[simp] theorem stdout_emit (w : World) (e : Emitted) : (w.emit e).stdout = w.stdout ++ [e] := rfl
@[simp] theorem calls_emit (w : World) (e : Emitted) : (w.emit e).calls = w.calls := rfl
@[simp] theorem stdout_call (w : World) (c : Call) : (w.call c).stdout = w.stdout := rfl
@[simp] theorem calls_call (w : World) (c : Call) : (w.call c).calls = w.calls ++ [c] := rfl

@[simp] theorem calls_printCellPos (a b : Cell) (w : World) :
    (printCellPos a b w).calls = w.calls := rfl

theorem details_printCellPos (a b : Cell) (w : World) :
    details (printCellPos a b w).stdout = details w.stdout := by
  simp [printCellPos, details, List.filterMap_append]

theorem summaries_printCellPos (a b : Cell) (w : World) :
    summaries (printCellPos a b w).stdout = summaries w.stdout := by
  simp [printCellPos, summaries, List.filterMap_append]

theorem sameCell_self (c : Cell) : sameCell c c = true := by
  simp [sameCell]

theorem incrInt_eq (env : Env) (i : Int) (h0 : 0 ≤ i)
    (h : i + 1 < 2 ^ (env.intBits - 1)) : incrInt env i = i + 1 := by
  unfold incrInt
  have hb : 1 ≤ env.intBits := by
    by_contra hc
    have : env.intBits = 0 := by omega
    rw [this] at h
    simp at h
    omega
  have h2 : (2 : Int) ^ env.intBits = 2 * 2 ^ (env.intBits - 1) := by
    have : env.intBits = (env.intBits - 1) + 1 := by omega
    conv_lhs => rw [this]
    rw [pow_succ]; ring
  rw [h2]
  generalize (2 : Int) ^ (env.intBits - 1) = H at *
  rw [Int.emod_eq_of_lt (by omega) (by omega)]
  omega

theorem newDetailResult_str (path name : String) (m : XlRange) (s : String)
    (h : m.Val.1 = .str s) : newDetailResult path name m = some (matchRecord path name m) := by
  simp [newDetailResult, matchRecord, h, textOf]

theorem outDetail_ok (env : Env) (args : Args) (enc : DetailResult → String)
    (hjson : args.json = true → ∀ r, env.marshalDetail r = .ok (enc r))
    (result : DetailResult) (w : World) :
    outDetail env args result w = (none, w.emit (.detail (detailLine env args enc result))) := by
  unfold outDetail detailLine
  by_cases hj : args.json = true
  · simp [hj, toJson, hjson hj result]
  · simp [hj]

theorem outSimple_ok (env : Env) (args : Args) (enc : SimpleResult → String)
    (hjson : args.json = true → ∀ r, env.marshalSimple r = .ok (enc r))
    (result : SimpleResult) (w : World) :
    outSimple env args result w = (none, w.emit (.summary (simpleLine env args enc result))) := by
  unfold outSimple simpleLine
  by_cases hj : args.json = true
  · simp [hj, toJson, hjson hj result]
  · simp [hj]
theorem details_afterFound (args : Args) (a b : Cell) (w : World) :
    details (afterFound args a b w).stdout = details w.stdout := by
  unfold afterFound; split <;> simp [details_printCellPos]

theorem summaries_afterFound (args : Args) (a b : Cell) (w : World) :
    summaries (afterFound args a b w).stdout = summaries w.stdout := by
  unfold afterFound; split <;> simp [summaries_printCellPos]

theorem calls_afterFound (args : Args) (a b : Cell) (w : World) :
    (afterFound args a b w).calls = w.calls ++ [.findNext b none] := by
  unfold afterFound; split <;> simp

theorem loop_stop (env : Env) (args : Args) (relPath name : String) (rng : UsedRange)
    (startCell : Cell) (fuel : Nat) (i : Int) (cur nxt : XlRange) (w : World)
    (hnext : rng.FindNext cur.Cells11.1 = .ok (some nxt))
    (hsame : (decide (i > 0) && sameCell startCell cur.Cells11.1) = true) :
    findNextLoop env args relPath name rng startCell (fuel + 1) i cur w
      = (.nil, afterFound args startCell cur.Cells11.1 w) := by
  rw [findNextLoop]
  simp only [hnext, errOf, hsame, afterFound]
  simp

theorem loop_step (env : Env) (args : Args) (relPath name : String) (rng : UsedRange)
    (startCell : Cell) (fuel : Nat) (i : Int) (cur nxt : XlRange) (w : World)
    (enc : DetailResult → String) (s : String)
    (hv : args.verbose = true)
    (hjson : args.json = true → ∀ r, env.marshalDetail r = .ok (enc r))
    (hnext : rng.FindNext cur.Cells11.1 = .ok (some nxt))
    (hsame : (decide (i > 0) && sameCell startCell cur.Cells11.1) = false)
    (htext : nxt.Val.1 = .str s) :
    findNextLoop env args relPath name rng startCell (fuel + 1) i cur w
      = findNextLoop env args relPath name rng startCell fuel (incrInt env i) nxt
          ((afterFound args startCell cur.Cells11.1 w).emit
            (.detail (detailLine env args enc (matchRecord relPath name nxt)))) := by
  rw [findNextLoop]
  simp only [hnext, errOf, hsame, afterFound, hv, newDetailResult_str relPath name nxt s htext,
    outDetail_ok env args enc hjson]
  simp

theorem details_append (a b : List Emitted) : details (a ++ b) = details a ++ details b := by
  simp [details, List.filterMap_append]

theorem summaries_append (a b : List Emitted) :
    summaries (a ++ b) = summaries a ++ summaries b := by
  simp [summaries, List.filterMap_append]

theorem findNextCalls_append (a b : List Call) :
    findNextCalls (a ++ b) = findNextCalls a ++ findNextCalls b := by
  simp [findNextCalls, List.filterMap_append]

theorem details_detail (line : String) : details [.detail line] = [line] := rfl

theorem summaries_detail (line : String) : summaries [.detail line] = [] := rfl

theorem details_summary (line : String) : details [.summary line] = [] := rfl

theorem summaries_summary (line : String) : summaries [.summary line] = [line] := rfl

theorem findNextCalls_findNext (after : Cell) (err : Option GoError) :
    findNextCalls [.findNext after err] = [after] := rfl

/-- The loop on a sheet whose matches `FindNext` cycles through: entered at
the match of index `pre.length` with `i = pre.length`, it reports the rest of
the cycle, then the first match again, and stops one call later. -/
theorem loop_cycle (env : Env) (args : Args) (relPath name : String) (rng : UsedRange)
    (enc : DetailResult → String) (ms : List XlRange) (first : XlRange)
    (hv : args.verbose = true)
    (hjson : args.json = true → ∀ r, env.marshalDetail r = .ok (enc r))
    (hfirst : ms[0]? = some first)
    (hnext : ∀ i m, ms[i]? = some m →
      rng.FindNext m.Cells11.1 = .ok ms[(i + 1) % ms.length]?)
    (hdist : ∀ j m, 0 < j → ms[j]? = some m →
      sameCell first.Cells11.1 m.Cells11.1 = false)
    (htext : ∀ m ∈ ms, ∃ s, m.Val.1 = .str s)
    (hbits : (ms.length : Int) < 2 ^ (env.intBits - 1)) :
    ∀ (rest pre : List XlRange) (cur : XlRange) (fuel : Nat) (w : World),
      ms = pre ++ cur :: rest → rest.length + 2 ≤ fuel →
      ∃ w', findNextLoop env args relPath name rng first.Cells11.1 fuel (pre.length : Int) cur w
          = (.nil, w') ∧
        details w'.stdout = details w.stdout
          ++ (rest ++ [first]).map (fun m => detailLine env args enc (matchRecord relPath name m)) ∧
        summaries w'.stdout = summaries w.stdout ∧
        findNextCalls w'.calls = findNextCalls w.calls
          ++ (cur :: rest ++ [first]).map (fun m => m.Cells11.1) := by
  have hfm : first ∈ ms := List.getElem?_mem hfirst
  have hpos : 0 < ms.length := List.length_pos_of_mem hfm
  intro rest
  induction rest with
  | nil =>
    intro pre cur fuel w hms hfuel
    obtain ⟨f, rfl⟩ : ∃ f, fuel = f + 1 + 1 := ⟨fuel - 2, by simp at hfuel; omega⟩
    have hlen : ms.length = pre.length + 1 := by simp [hms]
    have hcur : ms[pre.length]? = some cur := by
      rw [hms, List.getElem?_append_right (Nat.le_refl _)]; simp
    have hn := hnext pre.length cur hcur
    rw [hlen, Nat.mod_self, hfirst] at hn
    have hs : (decide ((pre.length : Int) > 0) && sameCell first.Cells11.1 cur.Cells11.1)
        = false := by
      rcases Nat.eq_zero_or_pos pre.length with h0 | hp
      · simp [h0]
      · rw [hdist pre.length cur hp hcur]; simp
    obtain ⟨s, hs'⟩ := htext first hfm
    rw [loop_step env args relPath name rng first.Cells11.1 (f + 1) _ cur first w enc s hv hjson
      hn hs hs']
    rw [incrInt_eq env _ (by omega) (by rw [hlen] at hbits; push_cast at hbits; omega)]
    have hlt : (0 + 1) % ms.length < ms.length := Nat.mod_lt _ hpos
    obtain ⟨nxt, hnxt⟩ : ∃ nxt, ms[(0 + 1) % ms.length]? = some nxt :=
      ⟨ms[(0 + 1) % ms.length], List.getElem?_eq_getElem hlt⟩
    have hn2 := hnext 0 first hfirst
    rw [hnxt] at hn2
    rw [loop_stop env args relPath name rng first.Cells11.1 f _ first nxt _ hn2
      (by simp [sameCell_self])]
    refine ⟨_, rfl, ?_, ?_, ?_⟩
    · simp [details_append, details_afterFound, details_detail]
    · simp [summaries_append, summaries_afterFound, summaries_detail]
    · simp [calls_afterFound, findNextCalls, List.filterMap_append]
  | cons nxt rest ih =>
    intro pre cur fuel w hms hfuel
    obtain ⟨f, rfl⟩ : ∃ f, fuel = f + 1 := ⟨fuel - 1, by simp at hfuel; omega⟩
    have hlen : ms.length = pre.length + (rest.length + 2) := by simp [hms]
    have hcur : ms[pre.length]? = some cur := by
      rw [hms, List.getElem?_append_right (Nat.le_refl _)]; simp
    have hnx : ms[pre.length + 1]? = some nxt := by
      rw [hms, List.getElem?_append_right (by omega)]; simp
    have hn := hnext pre.length cur hcur
    rw [Nat.mod_eq_of_lt (by omega), hnx] at hn
    have hs : (decide ((pre.length : Int) > 0) && sameCell first.Cells11.1 cur.Cells11.1)
        = false := by
      rcases Nat.eq_zero_or_pos pre.length with h0 | hp
      · simp [h0]
      · rw [hdist pre.length cur hp hcur]; simp
    obtain ⟨s, hs'⟩ := htext nxt (List.getElem?_mem hnx)
    rw [loop_step env args relPath name rng first.Cells11.1 f _ cur nxt w enc s hv hjson
      hn hs hs']
    rw [incrInt_eq env _ (by omega) (by rw [hlen] at hbits; push_cast at hbits; omega)]
    have hms' : ms = (pre ++ [cur]) ++ nxt :: rest := by simp [hms]
    obtain ⟨w', hw', hd, hsum, hc⟩ := ih (pre ++ [cur]) nxt f
      ((afterFound args first.Cells11.1 cur.Cells11.1 w).emit
        (.detail (detailLine env args enc (matchRecord relPath name nxt)))) hms'
      (by simp at hfuel ⊢; omega)
    have hcast : ((pre ++ [cur]).length : Int) = (pre.length : Int) + 1 := by simp
    rw [hcast] at hw'
    refine ⟨w', hw', ?_, ?_, ?_⟩
    · rw [hd]; simp [details_append, details_afterFound, details_detail]
    · rw [hsum]; simp [summaries_append, summaries_afterFound, summaries_detail]
    · rw [hc]; simp [calls_afterFound, findNextCalls, List.filterMap_append]
theorem outDetail_cases (env : Env) (args : Args) (result : DetailResult) (w : World) :
    (∃ e, outDetail env args result w = (some e, w)) ∨
    (∃ line, outDetail env args result w = (none, w.emit (.detail line))) := by
  unfold outDetail
  by_cases hj : args.json = true
  · simp only [hj, if_true]
    cases h : toJson env.marshalDetail result with
    | error e => exact Or.inl ⟨_, rfl⟩
    | ok m => exact Or.inr ⟨_, rfl⟩
  · simp only [hj]
    exact Or.inr ⟨_, rfl⟩

theorem outSimple_cases (env : Env) (args : Args) (result : SimpleResult) (w : World) :
    (∃ e, outSimple env args result w = (some e, w)) ∨
    (∃ line, outSimple env args result w = (none, w.emit (.summary line))) := by
  unfold outSimple
  by_cases hj : args.json = true
  · simp only [hj, if_true]
    cases h : toJson env.marshalSimple result with
    | error e => exact Or.inl ⟨_, rfl⟩
    | ok m => exact Or.inr ⟨_, rfl⟩
  · simp only [hj]
    exact Or.inr ⟨_, rfl⟩

/-- One iteration of the loop whose `FindNext` call finds a range: either the
loop ends there, whatever the fuel, or it goes on from the found range. -/
theorem loop_found (env : Env) (args : Args) (relPath name : String) (rng : UsedRange)
    (startCell : Cell) (i : Int) (cur nxt : XlRange) (w : World)
    (hnext : rng.FindNext cur.Cells11.1 = .ok (some nxt)) :
    (∃ e w1, e ≠ Exit.outOfFuel ∧
      (∀ f, findNextLoop env args relPath name rng startCell (f + 1) i cur w = (e, w1)) ∧
      findNextCalls w1.calls = findNextCalls w.calls ++ [cur.Cells11.1]) ∨
    ((decide (i > 0) && sameCell startCell cur.Cells11.1) = false ∧
      ∃ w2, (∀ f, findNextLoop env args relPath name rng startCell (f + 1) i cur w
          = findNextLoop env args relPath name rng startCell f (incrInt env i) nxt w2) ∧
        findNextCalls w2.calls = findNextCalls w.calls ++ [cur.Cells11.1]) := by
  have hc := calls_afterFound args startCell cur.Cells11.1 w
  by_cases hs : (decide (i > 0) && sameCell startCell cur.Cells11.1) = true
  · refine Or.inl ⟨.nil, afterFound args startCell cur.Cells11.1 w, by simp, ?_, ?_⟩
    · intro f
      exact loop_stop env args relPath name rng startCell f i cur nxt w hnext hs
    · rw [hc]; simp [findNextCalls, List.filterMap_append]
  · have hs' : (decide (i > 0) && sameCell startCell cur.Cells11.1) = false := by
      simpa using hs
    have hcalls : findNextCalls (afterFound args startCell cur.Cells11.1 w).calls
        = findNextCalls w.calls ++ [cur.Cells11.1] := by
      rw [hc]; simp [findNextCalls, List.filterMap_append]
    have hunfold : ∀ f, findNextLoop env args relPath name rng startCell (f + 1) i cur w
        = if args.verbose then
            match newDetailResult relPath name nxt with
            | none => (.panic, afterFound args startCell cur.Cells11.1 w)
            | some result =>
              match outDetail env args result (afterFound args startCell cur.Cells11.1 w) with
              | (some err, w) => (.err err, w)
              | (none, w) =>
                findNextLoop env args relPath name rng startCell f (incrInt env i) nxt w
          else findNextLoop env args relPath name rng startCell f (incrInt env i) nxt
            (afterFound args startCell cur.Cells11.1 w) := by
      intro f
      rw [findNextLoop]
      simp only [hnext, errOf, hs', afterFound]
      simp
    by_cases hv : args.verbose = true
    · cases hr : newDetailResult relPath name nxt with
      | none =>
        refine Or.inl ⟨.panic, afterFound args startCell cur.Cells11.1 w, by simp, ?_, hcalls⟩
        intro f; rw [hunfold f]; simp [hv, hr]
      | some result =>
        rcases outDetail_cases env args result (afterFound args startCell cur.Cells11.1 w) with
          ⟨e, he⟩ | ⟨line, hl⟩
        · refine Or.inl ⟨.err e, afterFound args startCell cur.Cells11.1 w, by simp, ?_, hcalls⟩
          intro f; rw [hunfold f]; simp [hv, hr, he]
        · refine Or.inr ⟨hs', (afterFound args startCell cur.Cells11.1 w).emit (.detail line),
            ?_, ?_⟩
          · intro f; rw [hunfold f]; simp [hv, hr, hl]
          · simpa using hcalls
    · refine Or.inr ⟨hs', afterFound args startCell cur.Cells11.1 w, ?_, hcalls⟩
      intro f; rw [hunfold f]; simp [hv]

/-- On a sheet whose matches `FindNext` cycles through, the loop entered at
the match of index `pre.length` ends within `rest.length + 2` iterations. -/
theorem loop_bounded (env : Env) (args : Args) (relPath name : String) (rng : UsedRange)
    (ms : List XlRange) (first : XlRange)
    (hfirst : ms[0]? = some first)
    (hnext : ∀ i m, ms[i]? = some m →
      rng.FindNext m.Cells11.1 = .ok ms[(i + 1) % ms.length]?)
    (hbits : (ms.length : Int) < 2 ^ (env.intBits - 1)) :
    ∀ (rest pre : List XlRange) (cur : XlRange) (w : World),
      ms = pre ++ cur :: rest →
      ∃ e w', e ≠ Exit.outOfFuel ∧
        (∀ fuel, rest.length + 2 ≤ fuel →
          findNextLoop env args relPath name rng first.Cells11.1 fuel (pre.length : Int) cur w
            = (e, w')) ∧
        (findNextCalls w'.calls).length ≤ (findNextCalls w.calls).length + (rest.length + 2) := by
  have hpos : 0 < ms.length := List.length_pos_of_mem (List.getElem?_mem hfirst)
  intro rest
  induction rest with
  | nil =>
    intro pre cur w hms
    have hlen : ms.length = pre.length + 1 := by simp [hms]
    have hcur : ms[pre.length]? = some cur := by simp [hms]
    have hn := hnext pre.length cur hcur
    rw [hlen, Nat.mod_self, hfirst] at hn
    rcases loop_found env args relPath name rng first.Cells11.1 (pre.length : Int) cur first w hn
      with ⟨e, w1, he, hrun, hcalls⟩ | ⟨_, w2, hrun, hcalls⟩
    · refine ⟨e, w1, he, ?_, by rw [hcalls]; simp⟩
      intro fuel hfuel
      obtain ⟨f, rfl⟩ : ∃ f, fuel = f + 1 := ⟨fuel - 1, by omega⟩
      exact hrun f
    · have hlt : (0 + 1) % ms.length < ms.length := Nat.mod_lt _ hpos
      obtain ⟨nxt, hnxt⟩ : ∃ nxt, ms[(0 + 1) % ms.length]? = some nxt :=
        ⟨ms[(0 + 1) % ms.length], List.getElem?_eq_getElem hlt⟩
      have hn2 := hnext 0 first hfirst
      rw [hnxt] at hn2
      have hi : incrInt env (pre.length : Int) = (pre.length : Int) + 1 :=
        incrInt_eq env _ (by omega) (by rw [hlen] at hbits; push_cast at hbits; omega)
      refine ⟨.nil, afterFound args first.Cells11.1 first.Cells11.1 w2, by simp, ?_, ?_⟩
      · intro fuel hfuel
        obtain ⟨f, rfl⟩ : ∃ f, fuel = f + 1 + 1 := ⟨fuel - 2, by simp at hfuel; omega⟩
        rw [hrun (f + 1), hi]
        exact loop_stop env args relPath name rng first.Cells11.1 f _ first nxt w2 hn2
          (by simp [sameCell_self])
      · rw [calls_afterFound, findNextCalls_append, hcalls]
        simp [findNextCalls]
  | cons nxt rest ih =>
    intro pre cur w hms
    have hlen : ms.length = pre.length + (rest.length + 2) := by simp [hms]
    have hcur : ms[pre.length]? = some cur := by
      rw [hms, List.getElem?_append_right (Nat.le_refl _)]; simp
    have hnx : ms[pre.length + 1]? = some nxt := by
      rw [hms, List.getElem?_append_right (by omega)]; simp
    have hn := hnext pre.length cur hcur
    rw [Nat.mod_eq_of_lt (by omega), hnx] at hn
    rcases loop_found env args relPath name rng first.Cells11.1 (pre.length : Int) cur nxt w hn
      with ⟨e, w1, he, hrun, hcalls⟩ | ⟨_, w2, hrun, hcalls⟩
    · refine ⟨e, w1, he, ?_, by rw [hcalls]; simp⟩
      intro fuel hfuel
      obtain ⟨f, rfl⟩ : ∃ f, fuel = f + 1 := ⟨fuel - 1, by omega⟩
      exact hrun f
    · have hi : incrInt env (pre.length : Int) = ((pre ++ [cur]).length : Int) := by
        rw [incrInt_eq env _ (by omega) (by rw [hlen] at hbits; push_cast at hbits; omega)]
        simp
      obtain ⟨e, w', he, hrun', hbound⟩ := ih (pre ++ [cur]) nxt w2 (by simp [hms])
      refine ⟨e, w', he, ?_, ?_⟩
      · intro fuel hfuel
        obtain ⟨f, rfl⟩ : ∃ f, fuel = f + 1 := ⟨fuel - 1, by omega⟩
        rw [hrun f, hi]
        exact hrun' f (by simp at hfuel ⊢; omega)
      · rw [hcalls] at hbound
        simp at hbound ⊢
        omega

theorem stdout_afterFind (args : Args) (anchor : Cell) (w : World) :
    (afterFind args anchor w).stdout = w.stdout := rfl

theorem findNextCalls_afterFind (args : Args) (anchor : Cell) (w : World) :
    findNextCalls (afterFind args anchor w).calls = findNextCalls w.calls := by
  simp [afterFind, findNextCalls, List.filterMap_append]

/-- The sheet scan once `Find` has found a range. -/
theorem scanSheet_found (env : Env) (args : Args) (relPath : String) (fuel : Nat)
    (ws : Worksheet) (rng : UsedRange) (anchor : Cell) (first : XlRange) (w : World)
    (hrng : ws.UsedRange = .ok rng) (hanchor : rng.Cells11 = .ok anchor)
    (hfind : rng.Find args.text anchor = .ok (some first)) :
    scanSheet env args relPath fuel ws w =
      if args.verbose = false then
        match outSimple env args (newSimpleResult relPath ws.Name.1 "HIT")
          (afterFind args anchor w) with
        | (some err, w) => (.err err, w)
        | (none, w) => (.nil, w)
      else
        match newDetailResult relPath ws.Name.1 first with
        | none => (.panic, afterFind args anchor w)
        | some result =>
          match outDetail env args result (afterFind args anchor w) with
          | (some err, w) => (.err err, w)
          | (none, w) =>
            findNextLoop env args relPath ws.Name.1 rng first.Cells11.1 fuel 0 first w := by
  simp only [scanSheet, hrng, hanchor, hfind, errOf, afterFind]
  cases args.verbose <;> simp

/-- The sheet scan once `Find` has reported not found. -/
theorem scanSheet_notFound (env : Env) (args : Args) (relPath : String) (fuel : Nat)
    (ws : Worksheet) (rng : UsedRange) (anchor : Cell) (w : World)
    (hrng : ws.UsedRange = .ok rng) (hanchor : rng.Cells11 = .ok anchor)
    (hfind : rng.Find args.text anchor = .ok none) :
    scanSheet env args relPath fuel ws w =
      if args.onlyHit = false then
        match outSimple env args (newSimpleResult relPath ws.Name.1 "NO HIT")
          (afterFind args anchor w) with
        | (some err, w) => (.err err, w)
        | (none, w) => (.nil, w)
      else (.nil, afterFind args anchor w) := by
  simp only [scanSheet, hrng, hanchor, hfind, errOf, afterFind]
  cases args.onlyHit <;> simp

theorem escapeRune_plain (env : Env) (c : Char)
    (h : IsPrint env c = true ∧ c ≠ Char.ofNat 34 ∧ c ≠ Char.ofNat 92) :
    escapeRune env c = [c] := by
  simp [escapeRune, h.1, h.2.1, h.2.2]

theorem flatMap_escapeRune_plain (env : Env) (l : List Char)
    (h : ∀ c ∈ l, IsPrint env c = true ∧ c ≠ Char.ofNat 34 ∧ c ≠ Char.ofNat 92) :
    l.flatMap (escapeRune env) = l := by
  induction l with
  | nil => rfl
  | cons c cs ih =>
    rw [List.flatMap_cons, escapeRune_plain env c (h c (List.mem_cons_self _ _)),
      ih (fun d hd => h d (List.mem_cons_of_mem _ hd))]
    rfl

theorem cleanStep_refl (w w' : World) (h : w'.calls = w.calls) : CleanStep w w' :=
  ⟨[], by simp [h], by simp⟩

theorem cleanStep_call (w : World) (c : Call) (h : c.failure = none) : CleanStep w (w.call c) :=
  ⟨[c], rfl, by simpa using h⟩

theorem cleanStep_trans {w w1 w2 : World} (h1 : CleanStep w w1) (h2 : CleanStep w1 w2) :
    CleanStep w w2 := by
  obtain ⟨n1, hc1, hf1⟩ := h1
  obtain ⟨n2, hc2, hf2⟩ := h2
  refine ⟨n1 ++ n2, by rw [hc2, hc1, List.append_assoc], ?_⟩
  intro c hc
  rcases List.mem_append.1 hc with h | h
  · exact hf1 c h
  · exact hf2 c h

theorem cleanStep_afterFound (args : Args) (a b : Cell) (w : World) :
    CleanStep w (afterFound args a b w) :=
  ⟨[.findNext b none], calls_afterFound args a b w, by simp [Call.failure]⟩

theorem cleanStep_afterFind (args : Args) (anchor : Cell) (w : World) :
    CleanStep w (afterFind args anchor w) :=
  ⟨[.usedRange none, .cells none, .find args.text anchor none], by simp [afterFind],
    by simp [Call.failure]⟩

/-- A clean step may end in any exit. -/
theorem traced_of_clean {w w' : World} (e : Exit) (h : CleanStep w w') : Traced w (e, w') := by
  obtain ⟨new, hc, hf⟩ := h
  exact ⟨new, hc, Or.inl hf⟩

/-- A failed call ends the run in its wrapped error. -/
theorem traced_fail (w : World) (c : Call) (op : String) (e : GoError)
    (h : c.failure = some (op, e)) : Traced w (.err (genErr op e), w.call c) :=
  ⟨[c], rfl, Or.inr ⟨[], c, op, e, rfl, by simp, h, rfl⟩⟩

/-- A clean step followed by a traced run is a traced run. -/
theorem traced_trans {w w1 : World} {r : Exit × World} (h1 : CleanStep w w1)
    (h2 : Traced w1 r) : Traced w r := by
  obtain ⟨n1, hc1, hf1⟩ := h1
  obtain ⟨n2, hc2, hf2⟩ := h2
  refine ⟨n1 ++ n2, by rw [hc2, hc1, List.append_assoc], ?_⟩
  rcases hf2 with hclean | ⟨init, c, op, e, hn, hi, hc, he⟩
  · left
    intro c hc
    rcases List.mem_append.1 hc with h | h
    · exact hf1 c h
    · exact hclean c h
  · right
    refine ⟨n1 ++ init, c, op, e, by rw [hn, List.append_assoc], ?_, hc, he⟩
    intro c' hc'
    rcases List.mem_append.1 hc' with h | h
    · exact hf1 c' h
    · exact hi c' h

/-- A traced run that returned nil made no failing call. -/
theorem clean_of_traced_nil {w w' : World} (h : Traced w (.nil, w')) : CleanStep w w' := by
  obtain ⟨new, hc, hf⟩ := h
  rcases hf with hclean | ⟨_, _, _, _, _, _, _, he⟩
  · exact ⟨new, hc, hclean⟩
  · exact absurd he (by simp)

/-- The loop once `FindNext` has found a range. -/
theorem loop_unfold_found (env : Env) (args : Args) (relPath name : String) (rng : UsedRange)
    (startCell : Cell) (f : Nat) (i : Int) (cur nxt : XlRange) (w : World)
    (hnext : rng.FindNext cur.Cells11.1 = .ok (some nxt)) :
    findNextLoop env args relPath name rng startCell (f + 1) i cur w
      = if (decide (i > 0) && sameCell startCell cur.Cells11.1) = true then
          (.nil, afterFound args startCell cur.Cells11.1 w)
        else if args.verbose = true then
          match newDetailResult relPath name nxt with
          | none => (.panic, afterFound args startCell cur.Cells11.1 w)
          | some result =>
            match outDetail env args result (afterFound args startCell cur.Cells11.1 w) with
            | (some err, w) => (.err err, w)
            | (none, w) =>
              findNextLoop env args relPath name rng startCell f (incrInt env i) nxt w
        else findNextLoop env args relPath name rng startCell f (incrInt env i) nxt
          (afterFound args startCell cur.Cells11.1 w) := by
  rw [findNextLoop]
  simp only [hnext, errOf, afterFound]

theorem traced_findNextLoop (env : Env) (args : Args) (relPath name : String) (rng : UsedRange)
    (startCell : Cell) :
    ∀ (fuel : Nat) (i : Int) (cur : XlRange) (w : World),
      Traced w (findNextLoop env args relPath name rng startCell fuel i cur w) := by
  intro fuel
  induction fuel with
  | zero =>
    intro i cur w
    exact traced_of_clean _ (cleanStep_refl w w rfl)
  | succ f ih =>
    intro i cur w
    cases hn : rng.FindNext cur.Cells11.1 with
    | error e =>
      have : findNextLoop env args relPath name rng startCell (f + 1) i cur w
          = (.err (genErr "rng.FindNext(after)" e), w.call (.findNext cur.Cells11.1 (some e))) := by
        rw [findNextLoop]; simp [hn, errOf]
      rw [this]
      exact traced_fail w _ _ e rfl
    | ok o =>
      cases o with
      | none =>
        have : findNextLoop env args relPath name rng startCell (f + 1) i cur w
            = (.nil, w.call (.findNext cur.Cells11.1 none)) := by
          rw [findNextLoop]; simp [hn, errOf]
        rw [this]
        exact traced_of_clean _ (cleanStep_call w _ rfl)
      | some nxt =>
        rw [loop_unfold_found env args relPath name rng startCell f i cur nxt w hn]
        have hA := cleanStep_afterFound args startCell cur.Cells11.1 w
        split
        · exact traced_of_clean _ hA
        · split
          · cases hr : newDetailResult relPath name nxt with
            | none => exact traced_of_clean _ hA
            | some result =>
              rcases outDetail_cases env args result (afterFound args startCell cur.Cells11.1 w)
                with ⟨e, he⟩ | ⟨line, hl⟩
              · simp only [he]
                exact traced_of_clean _ hA
              · simp only [hl]
                exact traced_trans
                  (cleanStep_trans hA (cleanStep_refl _ _ (calls_emit _ _))) (ih _ _ _)
          · exact traced_trans hA (ih _ _ _)

theorem traced_scanSheet (env : Env) (args : Args) (relPath : String) (fuel : Nat)
    (ws : Worksheet) (w : World) : Traced w (scanSheet env args relPath fuel ws w) := by
  cases hrng : ws.UsedRange with
  | error e =>
    have : scanSheet env args relPath fuel ws w
        = (.err (genErr "ws.UsedRange()" e), w.call (.usedRange (some e))) := by
      simp [scanSheet, hrng, errOf]
    rw [this]
    exact traced_fail w _ _ e rfl
  | ok rng =>
    cases hanchor : rng.Cells11 with
    | error e =>
      have : scanSheet env args relPath fuel ws w
          = (.err (genErr "rng.Cells(1, 1)" e),
              (w.call (.usedRange none)).call (.cells (some e))) := by
        simp [scanSheet, hrng, hanchor, errOf]
      rw [this]
      exact traced_trans (cleanStep_call w (.usedRange none) rfl) (traced_fail _ _ _ e rfl)
    | ok anchor =>
      cases hfind : rng.Find args.text anchor with
      | error e =>
        have : scanSheet env args relPath fuel ws w
            = (.err (genErr "rng.Find(args.text, startCell)" e),
                ((w.call (.usedRange none)).call (.cells none)).call
                  (.find args.text anchor (some e))) := by
          simp [scanSheet, hrng, hanchor, hfind, errOf]
        rw [this]
        exact traced_trans
          (cleanStep_trans (cleanStep_call w (.usedRange none) rfl)
            (cleanStep_call _ (.cells none) rfl))
          (traced_fail _ _ _ e rfl)
      | ok o =>
        have hA := cleanStep_afterFind args anchor w
        cases o with
        | none =>
          rw [scanSheet_notFound env args relPath fuel ws rng anchor w hrng hanchor hfind]
          split
          · rcases outSimple_cases env args (newSimpleResult relPath ws.Name.1 "NO HIT")
              (afterFind args anchor w) with ⟨e, he⟩ | ⟨line, hl⟩
            · simp only [he]; exact traced_of_clean _ hA
            · simp only [hl]
              exact traced_of_clean _ (cleanStep_trans hA (cleanStep_refl _ _ (calls_emit _ _)))
          · exact traced_of_clean _ hA
        | some first =>
          rw [scanSheet_found env args relPath fuel ws rng anchor first w hrng hanchor hfind]
          split
          · rcases outSimple_cases env args (newSimpleResult relPath ws.Name.1 "HIT")
              (afterFind args anchor w) with ⟨e, he⟩ | ⟨line, hl⟩
            · simp only [he]; exact traced_of_clean _ hA
            · simp only [hl]
              exact traced_of_clean _ (cleanStep_trans hA (cleanStep_refl _ _ (calls_emit _ _)))
          · cases hr : newDetailResult relPath ws.Name.1 first with
            | none => exact traced_of_clean _ hA
            | some result =>
              rcases outDetail_cases env args result (afterFind args anchor w)
                with ⟨e, he⟩ | ⟨line, hl⟩
              · simp only [he]; exact traced_of_clean _ hA
              · simp only [hl]
                exact traced_trans (cleanStep_trans hA (cleanStep_refl _ _ (calls_emit _ _)))
                  (traced_findNextLoop env args relPath ws.Name.1 rng first.Cells11.1 fuel 0
                    first _)

theorem traced_walkSheets (env : Env) (args : Args) (relPath : String) (fuel : Nat) :
    ∀ (sheets : List Worksheet) (w : World),
      Traced w (walkSheets env args relPath fuel sheets w) := by
  intro sheets
  induction sheets with
  | nil => intro w; exact traced_of_clean _ (cleanStep_refl w w rfl)
  | cons ws rest ih =>
    intro w
    have ht := traced_scanSheet env args relPath fuel ws w
    rw [walkSheets]
    rcases h : scanSheet env args relPath fuel ws w with ⟨e, w1⟩
    rw [h] at ht
    cases e with
    | nil => exact traced_trans (clean_of_traced_nil ht) (ih w1)
    | err e => exact ht
    | panic => exact ht
    | outOfFuel => exact ht

/-- The callback on an entry that fails one of the three filters returns nil
and does nothing. -/
theorem walkFn_skip (env : Env) (args : Args) (rootDir : String) (fuel : Nat)
    (path : String) (isDir : Bool) (w : World)
    (h : ¬ (isDir = false ∧ contains (env.Base path) "~$" = false
      ∧ hasSuffix path ".xlsx" = true)) :
    walkFn env args rootDir fuel (.entry path isDir) w = (.nil, w) := by
  unfold walkFn
  cases isDir
  · cases hc : contains (env.Base path) "~$"
    · cases hs : hasSuffix path ".xlsx"
      · simp [hc, hs]
      · exact absurd ⟨rfl, hc, hs⟩ h
    · simp [hc]
  · simp

/-- The callback on an entry that passes the three filters, from the call of
`wbs.Open` on. -/
theorem walkFn_candidate (env : Env) (args : Args) (rootDir : String) (fuel : Nat)
    (path absPath : String) (isDir : Bool) (w : World)
    (h : isDir = false ∧ contains (env.Base path) "~$" = false ∧ hasSuffix path ".xlsx" = true)
    (habs : env.Abs path = .ok absPath) :
    walkFn env args rootDir fuel (.entry path isDir) w =
      match env.Open absPath with
      | .error err =>
        (.err (genErr "wbs.Open(absPath)" err), w.call (.wbsOpen absPath (some err)))
      | .ok wb =>
        match wb.WorkSheets with
        | .error err =>
          (.err (genErr "wb.WorkSheets()" err),
            (if args.debug = true then
                (w.call (.wbsOpen absPath none)).emit
                  (.trace (logOutput ("Document Open: " ++ absPath)))
              else w.call (.wbsOpen absPath none)).call (.workSheets (some err)))
        | .ok sheets =>
          walkSheets env args (env.Rel rootDir absPath).1 fuel sheets
            ((if args.debug = true then
                (w.call (.wbsOpen absPath none)).emit
                  (.trace (logOutput ("Document Open: " ++ absPath)))
              else w.call (.wbsOpen absPath none)).call (.workSheets none)) := by
  obtain ⟨h1, h2, h3⟩ := h
  unfold walkFn
  simp only [h1, h2, h3, habs]
  cases ho : env.Open absPath with
  | error err => simp [errOf]
  | ok wb =>
    cases hw : wb.WorkSheets with
    | error err => simp [errOf, hw]
    | ok sheets => simp [errOf, hw]

theorem traced_walkFn (env : Env) (args : Args) (rootDir : String) (fuel : Nat)
    (v : Visit) (w : World) : Traced w (walkFn env args rootDir fuel v w) := by
  cases v with
  | failed path err => exact traced_of_clean _ (cleanStep_refl w w rfl)
  | entry path isDir =>
    by_cases h : isDir = false ∧ contains (env.Base path) "~$" = false
      ∧ hasSuffix path ".xlsx" = true
    · cases habs : env.Abs path with
      | error e =>
        have : walkFn env args rootDir fuel (.entry path isDir) w = (.panic, w) := by
          unfold walkFn
          simp [h.1, h.2.1, h.2.2, habs]
        rw [this]
        exact traced_of_clean _ (cleanStep_refl w w rfl)
      | ok absPath =>
        rw [walkFn_candidate env args rootDir fuel path absPath isDir w h habs]
        have hdbg : CleanStep w (if args.debug = true then
            (w.call (.wbsOpen absPath none)).emit
              (.trace (logOutput ("Document Open: " ++ absPath)))
            else w.call (.wbsOpen absPath none)) := by
          split
          · exact cleanStep_trans (cleanStep_call w (.wbsOpen absPath none) rfl)
              (cleanStep_refl _ _ (calls_emit _ _))
          · exact cleanStep_call w (.wbsOpen absPath none) rfl
        cases ho : env.Open absPath with
        | error err => exact traced_fail w (.wbsOpen absPath (some err)) _ err rfl
        | ok wb =>
          dsimp only
          cases hw : wb.WorkSheets with
          | error err =>
            exact traced_trans hdbg (traced_fail _ (.workSheets (some err)) _ err rfl)
          | ok sheets =>
            exact traced_trans
              (cleanStep_trans hdbg (cleanStep_call _ (.workSheets none) rfl))
              (traced_walkSheets env args _ fuel sheets _)
    · rw [walkFn_skip env args rootDir fuel path isDir w h]
      exact traced_of_clean _ (cleanStep_refl w w rfl)

theorem traced_walkDir (env : Env) (args : Args) (rootDir : String) (fuel : Nat) :
    ∀ (visits : List Visit) (w : World),
      Traced w (walkDir env args rootDir fuel visits w) := by
  intro visits
  induction visits with
  | nil => intro w; exact traced_of_clean _ (cleanStep_refl w w rfl)
  | cons v rest ih =>
    intro w
    have ht := traced_walkFn env args rootDir fuel v w
    rw [walkDir]
    rcases h : walkFn env args rootDir fuel v w with ⟨e, w1⟩
    rw [h] at ht
    cases e with
    | nil => exact traced_trans (clean_of_traced_nil ht) (ih w1)
    | err e => exact ht
    | panic => exact ht
    | outOfFuel => exact ht

theorem traced_run (env : Env) (args : Args) (fuel : Nat) :
    Traced World.init (run env args fuel) := by
  unfold run
  cases env.Abs args.dir with
  | error e => exact traced_of_clean _ (cleanStep_refl _ _ rfl)
  | ok rootDir => exact traced_walkDir env args rootDir fuel _ _

/-- In a fail-fast stretch of calls a failed call is the last one, and the
exit is its wrapped error. -/
theorem failFast_last {exit : Exit} {new init rest : List Call} {c : Call} {op : String}
    {e : GoError} (h : FailFast exit new) (hnew : new = init ++ c :: rest)
    (hfail : c.failure = some (op, e)) : rest = [] ∧ exit = .err (genErr op e) := by
  rcases h with hclean | ⟨init', c', op', e', hn, hi, hc, he⟩
  · have := hclean c (by rw [hnew]; simp)
    rw [hfail] at this
    exact absurd this (by simp)
  · rcases List.eq_nil_or_concat rest with hr | ⟨r', x, hr⟩
    · subst hr
      rw [hnew] at hn
      have := List.append_inj' hn rfl
      obtain ⟨_, hcc⟩ := this
      simp at hcc
      subst hcc
      rw [hfail] at hc
      simp at hc
      obtain ⟨rfl, rfl⟩ := hc
      exact ⟨rfl, he⟩
    · subst hr
      rw [hnew] at hn
      have hn' : (init ++ c :: r') ++ [x] = init' ++ [c'] := by simpa using hn
      have := (List.append_inj' hn' rfl).1
      have hmem : c ∈ init' := by rw [← this]; simp
      have := hi c hmem
      rw [hfail] at this
      exact absurd this (by simp)

theorem newDetailResult_withCellsErr (path name : String) (r : XlRange)
    (err : Option GoError) :
    newDetailResult path name (r.withCellsErr err) = newDetailResult path name r := rfl

/-- The loop never reads the error of `Cells(1, 1)` on a found range. -/
theorem findNextLoop_withCellsErr (env : Env) (args : Args) (relPath name : String)
    (rng : UsedRange) (err : XlRange → Option GoError) (startCell : Cell) :
    ∀ (fuel : Nat) (i : Int) (cur : XlRange) (e0 : Option GoError) (w : World),
      findNextLoop env args relPath name (rng.withCellsErr err) startCell fuel i
          (cur.withCellsErr e0) w
        = findNextLoop env args relPath name rng startCell fuel i cur w := by
  intro fuel
  induction fuel with
  | zero => intro i cur e0 w; rfl
  | succ f ih =>
    intro i cur e0 w
    have hafter : (cur.withCellsErr e0).Cells11.1 = cur.Cells11.1 := rfl
    cases hn : rng.FindNext cur.Cells11.1 with
    | error e =>
      have hn' : (rng.withCellsErr err).FindNext cur.Cells11.1 = .error e := by
        simp [UsedRange.withCellsErr, hn]
      rw [findNextLoop, findNextLoop]
      simp [hafter, hn, hn', errOf]
    | ok o =>
      cases o with
      | none =>
        have hn' : (rng.withCellsErr err).FindNext cur.Cells11.1 = .ok none := by
          simp [UsedRange.withCellsErr, hn]
        rw [findNextLoop, findNextLoop]
        simp [hafter, hn, hn', errOf]
      | some nxt =>
        have hn' : (rng.withCellsErr err).FindNext (cur.withCellsErr e0).Cells11.1
            = .ok (some (nxt.withCellsErr (err nxt))) := by
          simp [UsedRange.withCellsErr, hafter, hn]
        rw [loop_unfold_found env args relPath name (rng.withCellsErr err) startCell f i
            (cur.withCellsErr e0) (nxt.withCellsErr (err nxt)) w hn',
          loop_unfold_found env args relPath name rng startCell f i cur nxt w hn]
        simp only [hafter, newDetailResult_withCellsErr, ih]

/-- The sheet scan never reads the error of `Cells(1, 1)` on a found range:
it runs as if every such call had succeeded. -/
theorem scanSheet_withCellsErr (env : Env) (args : Args) (relPath : String) (fuel : Nat)
    (ws : Worksheet) (err : XlRange → Option GoError) (w : World) :
    scanSheet env args relPath fuel (ws.withCellsErr err) w
      = scanSheet env args relPath fuel ws w := by
  cases hrng : ws.UsedRange with
  | error e => simp [scanSheet, Worksheet.withCellsErr, hrng]
  | ok rng =>
    have hrng' : (ws.withCellsErr err).UsedRange = .ok (rng.withCellsErr err) := by
      simp [Worksheet.withCellsErr, hrng]
    have hname : (ws.withCellsErr err).Name = ws.Name := rfl
    cases hanchor : rng.Cells11 with
    | error e =>
      have hanchor' : (rng.withCellsErr err).Cells11 = .error e := hanchor
      simp [scanSheet, hrng, hrng', hanchor, hanchor', errOf]
    | ok anchor =>
      have hanchor' : (rng.withCellsErr err).Cells11 = .ok anchor := hanchor
      cases hfind : rng.Find args.text anchor with
      | error e =>
        have hfind' : (rng.withCellsErr err).Find args.text anchor = .error e := by
          simp [UsedRange.withCellsErr, hfind]
        simp [scanSheet, hrng, hrng', hanchor, hanchor', hfind, hfind', errOf]
      | ok o =>
        cases o with
        | none =>
          have hfind' : (rng.withCellsErr err).Find args.text anchor = .ok none := by
            simp [UsedRange.withCellsErr, hfind]
          rw [scanSheet_notFound env args relPath fuel _ _ anchor w hrng' hanchor' hfind',
            scanSheet_notFound env args relPath fuel ws rng anchor w hrng hanchor hfind, hname]
        | some first =>
          have hfind' : (rng.withCellsErr err).Find args.text anchor
              = .ok (some (first.withCellsErr (err first))) := by
            simp [UsedRange.withCellsErr, hfind]
          have hcell : (first.withCellsErr (err first)).Cells11.1 = first.Cells11.1 := rfl
          rw [scanSheet_found env args relPath fuel _ _ anchor _ w hrng' hanchor' hfind',
            scanSheet_found env args relPath fuel ws rng anchor first w hrng hanchor hfind,
            hname]
          simp only [hcell, newDetailResult_withCellsErr, findNextLoop_withCellsErr]

/-! ## The claims -/

/-- C1, the code at a failing input: on the sheet with the two matches C2 and
A5, which `FindNext` cycles through, the detailed scan writes three detail
records, not two: C2, A5, and C2 a second time; it stops one `FindNext` call
after the wrap-around, at the third. -/
theorem two_matches_three_detail_records :
    scanSheet emptyEnv verboseArgs "a.xlsx" 8 (sheet1 twoHits) World.init
      = (.nil,
          ⟨[.detail "a.xlsx \"Sheet1\" (2,3): \"foo\"\n",
            .detail "a.xlsx \"Sheet1\" (5,1): \"foo bar\"\n",
            .detail "a.xlsx \"Sheet1\" (2,3): \"foo\"\n"],
           [.usedRange none, .cells none, .find "foo" (cellAt 1 1) none,
            .findNext (cellAt 2 3) none, .findNext (cellAt 5 1) none,
            .findNext (cellAt 2 3) none]⟩) := by
  decide

/-- C2, the code at a failing input: on the sheet whose only match is C2 the
detailed scan returns nil after two `FindNext` calls, not one, and has
written two detail records, not one: C2 twice. -/
theorem one_match_two_detail_records :
    scanSheet emptyEnv verboseArgs "a.xlsx" 8 (sheet1 oneHit) World.init
      = (.nil,
          ⟨[.detail "a.xlsx \"Sheet1\" (2,3): \"foo\"\n",
            .detail "a.xlsx \"Sheet1\" (2,3): \"foo\"\n"],
           [.usedRange none, .cells none, .find "foo" (cellAt 1 1) none,
            .findNext (cellAt 2 3) none, .findNext (cellAt 2 3) none]⟩) := by
  decide

/-- C3: on a sheet with N >= 1 matches that `FindNext` cycles through in
order, wrapping from the last back to the first, the sheet scan ends: from
N+1 units of loop fuel on it gives one and the same result, which is not
"out of fuel", and it has made at most N+1 `FindNext` calls. -/
theorem detailed_scan_terminates (env : Env) (args : Args) (relPath : String)
    (ws : Worksheet) (rng : UsedRange) (anchor : Cell) (first : XlRange) (rest : List XlRange)
    (w : World)
    (hrng : ws.UsedRange = .ok rng) (hanchor : rng.Cells11 = .ok anchor)
    (hfind : rng.Find args.text anchor = .ok (some first))
    (hnext : ∀ i m, (first :: rest)[i]? = some m →
      rng.FindNext m.Cells11.1 = .ok (first :: rest)[(i + 1) % (first :: rest).length]?)
    (hbits : ((first :: rest).length : Int) < 2 ^ (env.intBits - 1)) :
    ∃ e w', e ≠ Exit.outOfFuel ∧
      (∀ fuel, (first :: rest).length + 1 ≤ fuel →
        scanSheet env args relPath fuel ws w = (e, w')) ∧
      (findNextCalls w'.calls).length
        ≤ (findNextCalls w.calls).length + ((first :: rest).length + 1) := by
  have hscan := fun fuel =>
    scanSheet_found env args relPath fuel ws rng anchor first w hrng hanchor hfind
  have hc := findNextCalls_afterFind args anchor w
  by_cases hv : args.verbose = false
  · rcases outSimple_cases env args (newSimpleResult relPath ws.Name.1 "HIT")
      (afterFind args anchor w) with ⟨e, he⟩ | ⟨line, hl⟩
    · refine ⟨.err e, afterFind args anchor w, by simp, ?_, by rw [hc]; omega⟩
      intro fuel _; rw [hscan fuel]; simp [hv, he]
    · refine ⟨.nil, (afterFind args anchor w).emit (.summary line), by simp, ?_, ?_⟩
      · intro fuel _; rw [hscan fuel]; simp [hv, hl]
      · rw [calls_emit, hc]; omega
  · cases hr : newDetailResult relPath ws.Name.1 first with
    | none =>
      refine ⟨.panic, afterFind args anchor w, by simp, ?_, by rw [hc]; omega⟩
      intro fuel _; rw [hscan fuel]; simp [hv, hr]
    | some result =>
      rcases outDetail_cases env args result (afterFind args anchor w) with ⟨e, he⟩ | ⟨line, hl⟩
      · refine ⟨.err e, afterFind args anchor w, by simp, ?_, by rw [hc]; omega⟩
        intro fuel _; rw [hscan fuel]; simp [hv, hr, he]
      · obtain ⟨e, w', he, hrun, hbound⟩ := loop_bounded env args relPath ws.Name.1 rng
          (first :: rest) first (by simp) hnext hbits rest [] first
          ((afterFind args anchor w).emit (.detail line)) rfl
        refine ⟨e, w', he, ?_, ?_⟩
        · intro fuel hfuel
          rw [hscan fuel]
          simp only [hv, hr, hl]
          exact hrun fuel (by simp at hfuel ⊢; omega)
        · rw [calls_emit, hc] at hbound
          simp at hbound ⊢
          omega

/-- C3 at the sheet with three matches. -/
theorem detailed_scan_terminates_witness :
    ∃ e w', e ≠ Exit.outOfFuel ∧
      (∀ fuel, [textHit 2 3 "foo", textHit 5 1 "foo bar", textHit 7 2 "food"].length + 1 ≤ fuel →
        scanSheet emptyEnv verboseArgs "a.xlsx" fuel (sheet1 threeHits) World.init = (e, w')) ∧
      (findNextCalls w'.calls).length ≤ (findNextCalls World.init.calls).length
        + ([textHit 2 3 "foo", textHit 5 1 "foo bar", textHit 7 2 "food"].length + 1) :=
  detailed_scan_terminates emptyEnv verboseArgs "a.xlsx" (sheet1 threeHits)
    threeHits (cellAt 1 1) (textHit 2 3 "foo") [textHit 5 1 "foo bar", textHit 7 2 "food"]
    World.init rfl rfl rfl
    (by
      intro i m h
      match i, h with
      | 0, h => simp at h; subst h; rfl
      | 1, h => simp at h; subst h; rfl
      | 2, h => simp at h; subst h; rfl
      | n + 3, h => simp at h)
    (by decide)

/-- C4: on a sheet on which `Find` reports not found, whether verbose is on or
off, the scan returns nil, writes exactly one summary record
(path, sheet, "NO HIT") when onlyHit is false and nothing when it is true,
writes no detail record, and never calls `FindNext`. -/
theorem no_match_scan (env : Env) (args : Args) (relPath : String) (fuel : Nat)
    (ws : Worksheet) (rng : UsedRange) (anchor : Cell) (enc : SimpleResult → String) (w : World)
    (hjson : args.json = true → ∀ r, env.marshalSimple r = .ok (enc r))
    (hrng : ws.UsedRange = .ok rng) (hanchor : rng.Cells11 = .ok anchor)
    (hfind : rng.Find args.text anchor = .ok none) :
    ∃ w', scanSheet env args relPath fuel ws w = (.nil, w') ∧
      w'.stdout = w.stdout ++
        (if args.onlyHit = true then []
         else [.summary (simpleLine env args enc ⟨relPath, ws.Name.1, "NO HIT"⟩)]) ∧
      findNextCalls w'.calls = findNextCalls w.calls := by
  rw [scanSheet_notFound env args relPath fuel ws rng anchor w hrng hanchor hfind]
  by_cases ho : args.onlyHit = true
  · refine ⟨afterFind args anchor w, by simp [ho], by simp [ho, stdout_afterFind],
      findNextCalls_afterFind args anchor w⟩
  · refine ⟨(afterFind args anchor w).emit
      (.summary (simpleLine env args enc ⟨relPath, ws.Name.1, "NO HIT"⟩)), ?_, ?_, ?_⟩
    · simp [ho, outSimple_ok env args enc hjson, newSimpleResult]
    · simp [ho, stdout_afterFind]
    · rw [calls_emit]; exact findNextCalls_afterFind args anchor w

/-- C4 at the sheet without a match, onlyHit off: one "NO HIT" line. -/
theorem no_match_scan_witness :
    ∃ w', scanSheet emptyEnv summaryArgs "b.xlsx" 0 (sheet1 noHit) World.init = (.nil, w') ∧
      w'.stdout = World.init.stdout ++
        (if summaryArgs.onlyHit = true then []
         else [.summary (simpleLine emptyEnv summaryArgs sampleMarshalSimple
            ⟨"b.xlsx", (sheet1 noHit).Name.1, "NO HIT"⟩)]) ∧
      findNextCalls w'.calls = findNextCalls World.init.calls :=
  no_match_scan emptyEnv summaryArgs "b.xlsx" 0 (sheet1 noHit) noHit (cellAt 1 1)
    sampleMarshalSimple World.init (fun _ _ => rfl) rfl rfl rfl

/-- C5: with verbose off, on a sheet on which `Find` finds a range, whatever
`FindNext` would do and whatever onlyHit is, the scan returns nil, writes
exactly one record, the summary record (path, sheet, "HIT"), and never calls
`FindNext`. -/
theorem summary_scan_hit (env : Env) (args : Args) (relPath : String) (fuel : Nat)
    (ws : Worksheet) (rng : UsedRange) (anchor : Cell) (first : XlRange)
    (enc : SimpleResult → String) (w : World)
    (hv : args.verbose = false)
    (hjson : args.json = true → ∀ r, env.marshalSimple r = .ok (enc r))
    (hrng : ws.UsedRange = .ok rng) (hanchor : rng.Cells11 = .ok anchor)
    (hfind : rng.Find args.text anchor = .ok (some first)) :
    ∃ w', scanSheet env args relPath fuel ws w = (.nil, w') ∧
      w'.stdout = w.stdout
        ++ [.summary (simpleLine env args enc ⟨relPath, ws.Name.1, "HIT"⟩)] ∧
      findNextCalls w'.calls = findNextCalls w.calls := by
  rw [scanSheet_found env args relPath fuel ws rng anchor first w hrng hanchor hfind]
  refine ⟨(afterFind args anchor w).emit
    (.summary (simpleLine env args enc ⟨relPath, ws.Name.1, "HIT"⟩)), ?_, ?_, ?_⟩
  · simp [hv, outSimple_ok env args enc hjson, newSimpleResult]
  · simp [stdout_afterFind]
  · rw [calls_emit]; exact findNextCalls_afterFind args anchor w

/-- C5 at the sheet with three matches: one "HIT" line. -/
theorem summary_scan_hit_witness :
    ∃ w', scanSheet emptyEnv summaryArgs "a.xlsx" 0 (sheet1 threeHits) World.init = (.nil, w') ∧
      w'.stdout = World.init.stdout
        ++ [.summary (simpleLine emptyEnv summaryArgs sampleMarshalSimple
            ⟨"a.xlsx", (sheet1 threeHits).Name.1, "HIT"⟩)] ∧
      findNextCalls w'.calls = findNextCalls World.init.calls :=
  summary_scan_hit emptyEnv summaryArgs "a.xlsx" 0 (sheet1 threeHits) threeHits (cellAt 1 1)
    (textHit 2 3 "foo") sampleMarshalSimple World.init rfl (fun _ _ => rfl) rfl rfl rfl

/-- C6: the walk callback opens an entry as a document exactly when the entry
is not a directory, its base name does not contain "~$" and its path ends
with ".xlsx" (given that `filepath.Abs` resolves the path); an entry that
fails one of the three tests, in particular one whose base name contains
"~$", leaves the callback with nil and nothing done; and on a root whose
walk meets no non-directory entry ending with ".xlsx", `run` opens nothing
and returns nil. -/
theorem walk_opens_exactly_the_xlsx_files (env : Env) (args : Args) (rootDir : String)
    (fuel : Nat) (path absPath : String) (isDir : Bool) (w : World)
    (habs : env.Abs path = .ok absPath) :
    (opened absPath w (walkFn env args rootDir fuel (.entry path isDir) w).2 = true ↔
      isDir = false ∧ contains (env.Base path) "~$" = false ∧ hasSuffix path ".xlsx" = true) ∧
    (contains (env.Base path) "~$" = true →
      walkFn env args rootDir fuel (.entry path isDir) w = (.nil, w)) ∧
    ((∀ v ∈ env.WalkDir rootDir, ∃ p d, v = .entry p d ∧
        (d = false → hasSuffix p ".xlsx" = false)) →
      env.Abs args.dir = .ok rootDir → run env args fuel = (.nil, World.init)) := by
  refine ⟨⟨?_, ?_⟩, ?_, ?_⟩
  · intro ho
    by_contra hc
    rw [walkFn_skip env args rootDir fuel path isDir w hc] at ho
    simp [opened] at ho
  · intro hc
    have ht : ∃ l, (walkFn env args rootDir fuel (.entry path isDir) w).2.calls
        = w.calls ++ Call.wbsOpen absPath (errOf (env.Open absPath)) :: l := by
      rw [walkFn_candidate env args rootDir fuel path absPath isDir w hc habs]
      have hdbg : (if args.debug = true then
            (w.call (.wbsOpen absPath none)).emit
              (.trace (logOutput ("Document Open: " ++ absPath)))
          else w.call (.wbsOpen absPath none)).calls
          = w.calls ++ [.wbsOpen absPath none] := by
        split <;> rfl
      cases ho : env.Open absPath with
      | error err => exact ⟨[], rfl⟩
      | ok wb =>
        dsimp only
        cases hw : wb.WorkSheets with
        | error err =>
          dsimp only
          exact ⟨[.workSheets (some err)], by simp [hdbg, errOf]⟩
        | ok sheets =>
          dsimp only
          obtain ⟨new, hnew, _⟩ := traced_walkSheets env args (env.Rel rootDir absPath).1 fuel
            sheets ((if args.debug = true then
                (w.call (.wbsOpen absPath none)).emit
                  (.trace (logOutput ("Document Open: " ++ absPath)))
              else w.call (.wbsOpen absPath none)).call (.workSheets none))
          refine ⟨.workSheets none :: new, ?_⟩
          rw [hnew]
          simp [hdbg, errOf]
    obtain ⟨l, hl⟩ := ht
    simp [opened, hl]
  · intro hc
    exact walkFn_skip env args rootDir fuel path isDir w (by simp [hc])
  · intro hall hroot
    have hwalk : ∀ (visits : List Visit) (w : World),
        (∀ v ∈ visits, ∃ p d, v = .entry p d ∧ (d = false → hasSuffix p ".xlsx" = false)) →
        walkDir env args rootDir fuel visits w = (.nil, w) := by
      intro visits
      induction visits with
      | nil => intro w _; rfl
      | cons v vs ih =>
        intro w hv
        obtain ⟨p, d, rfl, hd⟩ := hv v (List.mem_cons_self _ _)
        have hskip := walkFn_skip env args rootDir fuel p d w (by
          rintro ⟨h1, _, h3⟩
          rw [hd h1] at h3
          exact absurd h3 (by simp))
        rw [walkDir, hskip]
        exact ih w (fun v' hv' => hv v' (List.mem_cons_of_mem _ hv'))
    unfold run
    rw [hroot]
    exact hwalk _ _ hall

/-- C6 on `C:\books`: `a.xlsx` is opened, the lock file `~$a.xlsx` is not. -/
theorem walk_opens_exactly_the_xlsx_files_witness :
    opened "C:\\books\\a.xlsx" World.init
      (walkFn (booksEnv noHit) summaryArgs "C:\\books" 8 (.entry "C:\\books\\a.xlsx" false)
        World.init).2 = true ∧
    walkFn (booksEnv noHit) summaryArgs "C:\\books" 8 (.entry "C:\\books\\~$a.xlsx" false)
      World.init = (.nil, World.init) :=
  ⟨(walk_opens_exactly_the_xlsx_files (booksEnv noHit) summaryArgs "C:\\books" 8
      "C:\\books\\a.xlsx" "C:\\books\\a.xlsx" false World.init rfl).1.2 (by decide),
   (walk_opens_exactly_the_xlsx_files (booksEnv noHit) summaryArgs "C:\\books" 8
      "C:\\books\\~$a.xlsx" "C:\\books\\~$a.xlsx" false World.init rfl).2.1 (by decide)⟩

/-- C7, the code at a failing input: the found range of `a.xlsx` returns an
error from `Cells(1, 1)`; the verbose run drops it, goes on to `FindNext`,
scans `b.xlsx` as well and returns nil, not an error wrapping
"Cells failed"; the run is the very run of the same books without the error. -/
theorem found_range_cells_error_is_dropped :
    brokenCellsHit.Cells11.2 = some (.leaf "Cells failed") ∧
    run (booksEnv (soleHit brokenCellsHit)) verboseArgs 8
      = (.nil,
          ⟨[.detail "a.xlsx \"Sheet1\" (2,3): \"foo\"\n"],
           [.wbsOpen "C:\\books\\a.xlsx" none, .workSheets none, .usedRange none, .cells none,
            .find "foo" (cellAt 1 1) none, .findNext (cellAt 2 3) none,
            .wbsOpen "C:\\books\\b.xlsx" none, .workSheets none, .usedRange none, .cells none,
            .find "foo" (cellAt 1 1) none]⟩) ∧
    run (booksEnv (soleHit brokenCellsHit)) verboseArgs 8
      = run (booksEnv (soleHit (textHit 2 3 "foo"))) verboseArgs 8 := by
  decide

/-- The checked engine calls are fail-fast: every error returned by an engine
call whose error `run` checks (`wbs.Open`, `wb.WorkSheets`, `ws.UsedRange`, `rng.Cells(1, 1)` on the
used range, `rng.Find`, `rng.FindNext`) ends the run at that call: it is the
last engine call, so neither the rest of the sheet nor a later sheet or
document is scanned, and `run` returns the error wrapped by `genErr`, whose
message is "<operation> failed: <error>" and which unwraps to the engine's
error. -/
theorem engine_error_aborts_run (env : Env) (args : Args) (fuel : Nat)
    (init : List Call) (c : Call) (rest : List Call) (op : String) (e : GoError)
    (hcalls : (run env args fuel).2.calls = init ++ c :: rest)
    (hfail : c.failure = some (op, e)) :
    rest = [] ∧ (run env args fuel).1 = .err (genErr op e) ∧
      (genErr op e).Error = op ++ " failed: " ++ e.Error ∧ (genErr op e).Unwrap = some e := by
  obtain ⟨new, hnew, hff⟩ := traced_run env args fuel
  have hnew' : new = init ++ c :: rest := by
    rw [hcalls] at hnew
    simpa [World.init] using hnew.symm
  obtain ⟨hrest, hexit⟩ := failFast_last hff hnew' hfail
  exact ⟨hrest, hexit, rfl, rfl⟩

/-- Fail-fast where `Find` fails on the sheet of `a.xlsx`: the run ends there,
`b.xlsx` is never opened. -/
theorem engine_error_aborts_run_witness :
    ([] : List Call) = [] ∧
    (run (booksEnv failingFind) summaryArgs 8).1
      = .err (genErr "rng.Find(args.text, startCell)" (.leaf "The RPC server is unavailable.")) ∧
    (genErr "rng.Find(args.text, startCell)" (.leaf "The RPC server is unavailable.")).Error
      = "rng.Find(args.text, startCell)" ++ " failed: "
        ++ (GoError.leaf "The RPC server is unavailable.").Error ∧
    (genErr "rng.Find(args.text, startCell)" (.leaf "The RPC server is unavailable.")).Unwrap
      = some (.leaf "The RPC server is unavailable.") :=
  engine_error_aborts_run (booksEnv failingFind) summaryArgs 8
    [.wbsOpen "C:\\books\\a.xlsx" none, .workSheets none, .usedRange none, .cells none]
    (.find "foo" (cellAt 1 1) (some (.leaf "The RPC server is unavailable."))) []
    "rng.Find(args.text, startCell)" (.leaf "The RPC server is unavailable.")
    (by decide) rfl

/-- Counterexample to C8: for the sheet name `a"b`, `outSimple` in non-JSON
mode writes `a.xlsx "a\"b": HIT`, the name escaped by `%q`, which is not the
line made of the path, a space, the name between double quotes, a colon, a
space and the status. -/
theorem outSimple_escapes_the_sheet_name :
    outSimple emptyEnv summaryArgs ⟨"a.xlsx", "a\"b", "HIT"⟩ World.init
      = (none, ⟨[.summary "a.xlsx \"a\\\"b\": HIT\n"], []⟩) ∧
    decide ("a.xlsx \"a\\\"b\": HIT\n"
      = "a.xlsx" ++ " " ++ "\"" ++ "a\"b" ++ "\"" ++ ":" ++ " " ++ "HIT" ++ "\n") = false := by
  decide

/-- C8, as the code has it: in non-JSON mode `outSimple` returns nil and writes exactly
one line: the path, a space, the sheet name as quoted by `%q`
(`strconv.Quote`), a colon, a space and the status text; when every
character of the sheet name is printable and is neither a double quote nor a
backslash, the quoted name is the name between two double quotes, so the line
is `<relativePath> "<sheetName>": <text>`. -/
theorem outSimple_line (env : Env) (args : Args) (path sheet text : String) (w : World)
    (hj : args.json = false) :
    outSimple env args ⟨path, sheet, text⟩ w
      = (none, w.emit (.summary (path ++ " " ++ quote env sheet ++ ": " ++ text ++ "\n"))) ∧
    ((∀ c ∈ sheet.data, IsPrint env c = true ∧ c ≠ Char.ofNat 34 ∧ c ≠ Char.ofNat 92) →
      outSimple env args ⟨path, sheet, text⟩ w
        = (none, w.emit (.summary (path ++ " " ++ "\"" ++ sheet ++ "\"" ++ ": " ++ text ++ "\n")))) := by
  have h1 : outSimple env args ⟨path, sheet, text⟩ w
      = (none, w.emit (.summary (path ++ " " ++ quote env sheet ++ ": " ++ text ++ "\n"))) := by
    simp [outSimple, hj, sprintfSimple, println]
  refine ⟨h1, ?_⟩
  intro hplain
  have hq : quote env sheet = "\"" ++ sheet ++ "\"" := by
    apply String.ext
    simp [quote, flatMap_escapeRune_plain env sheet.data hplain, String.data_append]
  rw [h1, hq]
  simp only [String.append_assoc]

/-- C8, as the code has it, at the sheet name `Sheet1`. -/
theorem outSimple_line_witness :
    outSimple emptyEnv summaryArgs ⟨"a.xlsx", "Sheet1", "HIT"⟩ World.init
      = (none, World.init.emit (.summary
          ("a.xlsx" ++ " " ++ "\"" ++ "Sheet1" ++ "\"" ++ ": " ++ "HIT" ++ "\n"))) :=
  (outSimple_line emptyEnv summaryArgs "a.xlsx" "Sheet1" "HIT" World.init rfl).2 (by decide)

/-- C9: on a sheet with N >= 1 text matches at pairwise distinct cells that
`FindNext` cycles through with wrap-around, the detailed scan returns nil
after exactly N+1 `FindNext` calls (on the N matches in order, then on the
first once more) and writes exactly N+1 detail records: the N matches in order
followed by the first match a second time; it writes no summary record. -/
theorem detailed_scan_reports_first_match_twice (env : Env) (args : Args) (relPath : String)
    (ws : Worksheet) (rng : UsedRange) (anchor : Cell) (first : XlRange) (rest : List XlRange)
    (enc : DetailResult → String) (fuel : Nat) (w : World)
    (hv : args.verbose = true)
    (hjson : args.json = true → ∀ r, env.marshalDetail r = .ok (enc r))
    (hrng : ws.UsedRange = .ok rng) (hanchor : rng.Cells11 = .ok anchor)
    (hfind : rng.Find args.text anchor = .ok (some first))
    (hnext : ∀ i m, (first :: rest)[i]? = some m →
      rng.FindNext m.Cells11.1 = .ok (first :: rest)[(i + 1) % (first :: rest).length]?)
    (hdist : (first :: rest).Pairwise fun a b => sameCell a.Cells11.1 b.Cells11.1 = false)
    (htext : ∀ m ∈ first :: rest, ∃ s, m.Val.1 = .str s)
    (hbits : ((first :: rest).length : Int) < 2 ^ (env.intBits - 1))
    (hfuel : (first :: rest).length + 1 ≤ fuel) :
    ∃ w', scanSheet env args relPath fuel ws w = (.nil, w') ∧
      details w'.stdout = details w.stdout ++ (first :: rest ++ [first]).map
        (fun m => detailLine env args enc (matchRecord relPath ws.Name.1 m)) ∧
      summaries w'.stdout = summaries w.stdout ∧
      findNextCalls w'.calls = findNextCalls w.calls
        ++ (first :: rest ++ [first]).map (fun m => m.Cells11.1) := by
  obtain ⟨s, hs⟩ := htext first (List.mem_cons_self _ _)
  have hd : ∀ j m, 0 < j → (first :: rest)[j]? = some m →
      sameCell first.Cells11.1 m.Cells11.1 = false := by
    intro j m hj hm
    obtain ⟨k, rfl⟩ : ∃ k, j = k + 1 := ⟨j - 1, by omega⟩
    rw [List.getElem?_cons_succ] at hm
    exact (List.pairwise_cons.1 hdist).1 m (List.getElem?_mem hm)
  obtain ⟨w', hw', hdet, hsum, hcalls⟩ := loop_cycle env args relPath ws.Name.1 rng enc
    (first :: rest) first hv hjson (by simp) hnext hd htext hbits rest [] first fuel
    ((((w.call (.usedRange none)).call (.cells none)).call (.find args.text anchor none)).emit
      (.detail (detailLine env args enc (matchRecord relPath ws.Name.1 first))))
    rfl (by simp at hfuel ⊢; omega)
  refine ⟨w', ?_, ?_, ?_, ?_⟩
  · rw [← hw']
    simp [scanSheet, hrng, hanchor, hfind, hv, errOf,
      newDetailResult_str relPath ws.Name.1 first s hs, outDetail_ok env args enc hjson]
  · rw [hdet]; simp [details_append, details_detail]
  · rw [hsum]; simp [summaries_append, summaries_detail]
  · rw [hcalls]; simp [findNextCalls, List.filterMap_append]

/-- C9 at the sheet with three matches: four `FindNext` calls, four detail
records. -/
theorem detailed_scan_reports_first_match_twice_witness :
    ∃ w', scanSheet emptyEnv verboseArgs "a.xlsx" 4 (sheet1 threeHits) World.init = (.nil, w') ∧
      details w'.stdout = details World.init.stdout
        ++ ([textHit 2 3 "foo", textHit 5 1 "foo bar", textHit 7 2 "food"]
            ++ [textHit 2 3 "foo"]).map
          (fun m => detailLine emptyEnv verboseArgs sampleMarshalDetail
            (matchRecord "a.xlsx" (sheet1 threeHits).Name.1 m)) ∧
      summaries w'.stdout = summaries World.init.stdout ∧
      findNextCalls w'.calls = findNextCalls World.init.calls
        ++ ([textHit 2 3 "foo", textHit 5 1 "foo bar", textHit 7 2 "food"]
            ++ [textHit 2 3 "foo"]).map (fun m => m.Cells11.1) :=
  detailed_scan_reports_first_match_twice emptyEnv verboseArgs "a.xlsx" (sheet1 threeHits)
    threeHits (cellAt 1 1) (textHit 2 3 "foo") [textHit 5 1 "foo bar", textHit 7 2 "food"]
    sampleMarshalDetail 4 World.init rfl (fun _ _ => rfl) rfl rfl rfl
    (by
      intro i m h
      match i, h with
      | 0, h => simp at h; subst h; rfl
      | 1, h => simp at h; subst h; rfl
      | 2, h => simp at h; subst h; rfl
      | n + 3, h => simp at h)
    (by decide)
    (by
      intro m hm
      simp at hm
      rcases hm with rfl | rfl | rfl <;> exact ⟨_, rfl⟩)
    (by decide) (by decide)

/-- C10: `newDetailResult` returns a record exactly when the matched value is
a string, and the record then carries the range's row, column and that
string; for every other value, whatever error came with it, and so for the
nil value of a failed read, the type assertion panics, and a verbose scan
whose first match is such a cell ends in that panic after the `Find` call,
with nothing written. -/
theorem newDetailResult_string_or_panic (env : Env) (args : Args) (relPath name : String)
    (fuel : Nat) (ws : Worksheet) (rng : UsedRange) (anchor : Cell) (found : XlRange)
    (w : World) :
    ((∃ r, newDetailResult relPath name found = some r) ↔ ∃ s, found.Val.1 = .str s) ∧
    (∀ s, found.Val.1 = .str s → newDetailResult relPath name found
      = some ⟨relPath, name, found.Row.1, found.Column.1, s⟩) ∧
    ((∀ s, found.Val.1 ≠ .str s) → newDetailResult relPath name found = none) ∧
    (∀ e, found.Val = (.null, some e) → newDetailResult relPath name found = none) ∧
    ((∀ s, found.Val.1 ≠ .str s) → args.verbose = true → ws.UsedRange = .ok rng →
      rng.Cells11 = .ok anchor → rng.Find args.text anchor = .ok (some found) →
      scanSheet env args relPath fuel ws w = (.panic, afterFind args anchor w)) := by
  have hnone : (∀ s, found.Val.1 ≠ .str s) → ∀ p n, newDetailResult p n found = none := by
    intro h p n
    unfold newDetailResult
    cases hval : found.Val.1 with
    | str s => exact absurd hval (h s)
    | _ => rfl
  have hsome : ∀ s, found.Val.1 = .str s → newDetailResult relPath name found
      = some ⟨relPath, name, found.Row.1, found.Column.1, s⟩ := by
    intro s hs
    simp [newDetailResult, hs]
  refine ⟨⟨?_, ?_⟩, hsome, fun h => hnone h relPath name, ?_, ?_⟩
  · rintro ⟨r, hr⟩
    by_contra hc
    rw [hnone (fun s hs => hc ⟨s, hs⟩) relPath name] at hr
    exact absurd hr (by simp)
  · rintro ⟨s, hs⟩
    exact ⟨_, hsome s hs⟩
  · intro e he
    exact hnone (by rw [he]; intro s h; cases h) relPath name
  · intro h hv hrng hanchor hfind
    rw [scanSheet_found env args relPath fuel ws rng anchor found w hrng hanchor hfind]
    simp [hv, hnone h relPath ws.Name.1]

/-- C10 at a number cell: no record, and the verbose scan panics. -/
theorem newDetailResult_string_or_panic_witness :
    newDetailResult "a.xlsx" "Sheet1" (numberHit 4 4) = none ∧
    scanSheet emptyEnv verboseArgs "a.xlsx" 8 (sheet1 numberOnly) World.init
      = (.panic, afterFind verboseArgs (cellAt 1 1) World.init) :=
  ⟨(newDetailResult_string_or_panic emptyEnv verboseArgs "a.xlsx" "Sheet1" 8 (sheet1 numberOnly)
      numberOnly (cellAt 1 1) (numberHit 4 4) World.init).2.2.1 (by intro s h; simp [numberHit] at h),
   (newDetailResult_string_or_panic emptyEnv verboseArgs "a.xlsx" "Sheet1" 8 (sheet1 numberOnly)
      numberOnly (cellAt 1 1) (numberHit 4 4) World.init).2.2.2.2
      (by intro s h; simp [numberHit] at h) rfl rfl rfl rfl⟩

end GrepXlsx
